import Mathlib

/-!
# vumeter.c: the numeric core of the VU meter

A shallow embedding of `model`, `get_force`, `get_max_amplitude` and
`timer_callback` from `vumeter.c`.

Conventions of the embedding:

* C `int` values are mathematical integers.  The conversion of a `float`
  expression to `int` (the assignment to `int a` in `model`) truncates
  toward zero, as C prescribes.  C leaves the conversion undefined when the
  value is outside the `int` range (or is not a number, as for `m = 0`); the
  embedding truncates there too, and a division by `0` yields `0`.  All the
  concrete runs below stay far inside the `int` range.
* A `struct sprung_mass *` argument that is updated in place becomes a state
  that is passed in and returned.
* C `float`/`double` values are rational numbers (every finite `float` is
  one).  The floating-point code is given two readings:
  - the exact reading (`model`, `get_force`), where each operation returns
    its exact result: rationals for the sprung mass, reals for `get_force`
    with `logf(0) = -∞`.  It is used for the statements that do not depend on
    rounding (the laws of the loop, the order of `get_force`, the runs that
    show the effect of `int a`);
  - the rounded reading (`model_ieee`, `get_force_ieee`), where each
    operation is followed by the rounding of its C type: `to_float`
    (binary32) for `float` operations, `to_double` (binary64) where a
    `double` operand (`0.001`, `M_1_PI`) promotes the operation, and
    `to_float` again where a `double` is stored in a `float`.  Rounding is to
    nearest, ties to even, with gradual underflow; each operation is rounded
    by itself (no fused multiply-add, no excess precision); overflow to
    infinity is not represented.  The functions of the C library are
    arguments of `get_force_ieee`.
-/

/-! ## Definitions

### `model` and `timer_callback` -/

/-- The record `struct sprung_mass`: mass, spring constant, damping
coefficient, displacement and velocity. -/
structure sprung_mass where
  m : ℚ
  k : ℚ
  d : ℚ
  x : ℚ
  v : ℚ
deriving DecidableEq

/-- Conversion of a floating value to `int` in C: the fractional part is
discarded (truncation toward zero). -/
def float_to_int (q : ℚ) : Int :=
  if 0 ≤ q then ⌊q⌋ else ⌈q⌉

/-- One pass through the body of the `for` loop of `model`
(lines 27-41): reflection at `x_min`, reflection at `x_max`, the
acceleration stored in the `int` variable `a`, then the two updates. -/
def model_step (force x_min x_max : ℚ) (sm : sprung_mass) : sprung_mass :=
  let sm := if sm.x < x_min then
      { sm with x := x_min, v := if sm.v < 0 then -sm.v else sm.v } else sm
  let sm := if sm.x > x_max then
      { sm with x := x_max, v := if sm.v > 0 then -sm.v else sm.v } else sm
  let a : Int := float_to_int ((force - sm.k * sm.x - sm.d * sm.v) / sm.m)
  let sm := { sm with v := sm.v + (a : ℚ) * (1 / 1000) }
  { sm with x := sm.x + sm.v * (1 / 1000) }

/-- The loop `for( t = 0; t < millis; t++ )` of `model`, with the number of
passes still to run as the recursion argument. -/
def model_loop (force x_min x_max : ℚ) : Nat → sprung_mass → sprung_mass
  | 0, sm => sm
  | n + 1, sm => model_loop force x_min x_max n (model_step force x_min x_max sm)

/-- The function `model`: runs the loop `millis` times (not at all when
`millis ≤ 0`) and returns `sm->x` together with the updated mass. -/
def model (sm : sprung_mass) (force x_min x_max : ℚ) (millis : Int) :
    ℚ × sprung_mass :=
  let sm := model_loop force x_min x_max millis.toNat sm
  (sm.x, sm)

/-- The initial value `{ 0.005, 1.0, 0.08, 1 }` of `left_mass`
(the velocity is zero-initialised). -/
def left_mass : sprung_mass := { m := 5 / 1000, k := 1, d := 8 / 100, x := 1, v := 0 }

/-- The initial value of `right_mass`, the same constants. -/
def right_mass : sprung_mass := { m := 5 / 1000, k := 1, d := 8 / 100, x := 1, v := 0 }

/-- The file-scope variables read and written by `timer_callback`. -/
structure globals where
  time : Int
  left_force : ℚ
  right_force : ℚ
  left_mass : sprung_mass
  right_mass : sprung_mass

/-- The function `timer_callback`, with the value of `SDL_GetTicks()` as
the argument `now`; the pushed redraw event is not represented. -/
def timer_callback (g : globals) (now : Int) : globals :=
  { g with
    left_mass := (model g.left_mass g.left_force 0 1 (now - g.time)).2
    right_mass := (model g.right_mass g.right_force 0 1 (now - g.time)).2
    time := now }

/-- A succession of calls `model( sm, force, 0, 1, millis )` on one mass, one
call per `(force, millis)` pair, as `timer_callback` issues them for a
channel. -/
def model_calls (sm : sprung_mass) : List (ℚ × Int) → sprung_mass
  | [] => sm
  | (force, millis) :: rest => model_calls (model sm force 0 1 millis).2 rest

/-- The micro-step as the specification words it: reflection, then
`a = (force − k·displacement − d·velocity) / mass` as a real value, then
`velocity += a · dt` and `displacement += velocity · dt` with `dt = 0.001`. -/
def spec_step (force x_min x_max : ℚ) (sm : sprung_mass) : sprung_mass :=
  let sm := if sm.x < x_min then
      { sm with x := x_min, v := if sm.v < 0 then -sm.v else sm.v } else sm
  let sm := if sm.x > x_max then
      { sm with x := x_max, v := if sm.v > 0 then -sm.v else sm.v } else sm
  let a : ℚ := (force - sm.k * sm.x - sm.d * sm.v) / sm.m
  let sm := { sm with v := sm.v + a * (1 / 1000) }
  { sm with x := sm.x + sm.v * (1 / 1000) }

/-- The specification's `advance`: `durationMillis` repetitions of
`spec_step`, returning the resulting displacement and the mass. -/
def spec_advance (sm : sprung_mass) (force x_min x_max : ℚ) (millis : Int) :
    ℚ × sprung_mass :=
  let sm := (spec_step force x_min x_max)^[millis.toNat] sm
  (sm.x, sm)

/-- The mass with the default constants at displacement `x` and velocity `v`. -/
def mass_at (x v : ℚ) : sprung_mass := { left_mass with x := x, v := v }

/-- The resting state the code reaches under zero force from `left_mass`. -/
def settled : sprung_mass := mass_at (123 / 25000) 0

/-! ### Rounding to binary32 and binary64 -/

/-- The loop of `nat_log2`: halve until below `2`, counting the halvings. -/
def log2_loop : Nat → Nat → Nat
  | 0, _ => 0
  | fuel + 1, n => if n < 2 then 0 else log2_loop fuel (n / 2) + 1

/-- The position of the leading bit of a natural number (`0` for `0`). -/
def nat_log2 (n : Nat) : Nat := log2_loop n n

/-- The exponent of the binade of a non-zero rational: `2^e ≤ |q| < 2^(e+1)`. -/
def ilog2 (q : ℚ) : Int :=
  let e0 : Int := (nat_log2 q.num.natAbs : Int) - (nat_log2 q.den : Int)
  if |q| < (2 : ℚ) ^ e0 then e0 - 1 else e0

/-- The exponent of the unit in the last place of `q` in a binary format with
a significand of `p` bits and least normal exponent `emin`. -/
def ulp_exponent (p : Nat) (emin : Int) (q : ℚ) : Int :=
  max (ilog2 q) emin - ((p : Int) - 1)

/-- Rounding to nearest, ties to even, onto the numbers of a binary
floating-point format with a significand of `p` bits and least normal
exponent `emin` (with subnormal numbers, without an upper limit). -/
def round_nearest_even (p : Nat) (emin : Int) (q : ℚ) : ℚ :=
  let ulp : ℚ := (2 : ℚ) ^ ulp_exponent p emin q
  let m : ℚ := q / ulp
  let f : Int := ⌊m⌋
  let r : Int :=
    if m - f < 1 / 2 then f
    else if 1 / 2 < m - f then f + 1
    else if f % 2 = 0 then f else f + 1
  (r : ℚ) * ulp

/-- Rounding to `float` (binary32). -/
def to_float (q : ℚ) : ℚ := round_nearest_even 24 (-126) q

/-- Rounding to `double` (binary64). -/
def to_double (q : ℚ) : ℚ := round_nearest_even 53 (-1022) q

/-! ### `model` with rounding -/

/-- One pass through the body of the `for` loop of `model` (lines 27-41)
with the rounding of each operation: the acceleration expression of line 39
is evaluated in `float`, lines 40 and 41 in `double` (the literal `0.001` is
a `double`) and stored as `float`. -/
def model_step_ieee (force x_min x_max : ℚ) (sm : sprung_mass) : sprung_mass :=
  let sm := if sm.x < x_min then
      { sm with x := x_min, v := if sm.v < 0 then -sm.v else sm.v } else sm
  let sm := if sm.x > x_max then
      { sm with x := x_max, v := if sm.v > 0 then -sm.v else sm.v } else sm
  let a : Int := float_to_int
    (to_float (to_float (to_float (force - to_float (sm.k * sm.x)) - to_float (sm.d * sm.v))
      / sm.m))
  let sm := { sm with
    v := to_float (to_double (sm.v + to_double ((a : ℚ) * to_double (1 / 1000)))) }
  { sm with x := to_float (to_double (sm.x + to_double (sm.v * to_double (1 / 1000)))) }

/-- The loop of `model` with rounding. -/
def model_loop_ieee (force x_min x_max : ℚ) : Nat → sprung_mass → sprung_mass
  | 0, sm => sm
  | n + 1, sm => model_loop_ieee force x_min x_max n (model_step_ieee force x_min x_max sm)

/-- The function `model` with rounding. -/
def model_ieee (sm : sprung_mass) (force x_min x_max : ℚ) (millis : Int) :
    ℚ × sprung_mass :=
  let sm := model_loop_ieee force x_min x_max millis.toNat sm
  (sm.x, sm)

/-- The initial value `{ 0.005, 1.0, 0.08, 1 }` of `left_mass` as `float`s:
the `double` literals converted to `float`. -/
def left_mass_ieee : sprung_mass :=
  { m := to_float (to_double (5 / 1000)), k := 1, d := to_float (to_double (8 / 100)),
    x := 1, v := 0 }

/-- The mass with the `float` constants of `left_mass_ieee` at displacement
`x` and velocity `v`. -/
def mass_at_ieee (x v : ℚ) : sprung_mass := { left_mass_ieee with x := x, v := v }

/-- A succession of calls `model( sm, force, 0, 1, millis )` with rounding. -/
def model_calls_ieee (sm : sprung_mass) : List (ℚ × Int) → sprung_mass
  | [] => sm
  | (force, millis) :: rest => model_calls_ieee (model_ieee sm force 0 1 millis).2 rest

/-! ### `get_max_amplitude` -/

/-- The value range of an `Sint16` sample. -/
def is_sint16 (z : Int) : Prop := -32768 ≤ z ∧ z ≤ 32767

/-- The loop `for( idx = 0; idx < len; idx += 2 )` of `get_max_amplitude`
(lines 57-65).  The arguments after the pass budget are the loop variable
`idx`, the running `max_amp`, and the list of the indices of `audio_buf`
read so far, oldest first.  The result is `none` when a read falls outside
`audio_buf` or when the pass budget is used up before the loop ends. -/
def get_max_amplitude_loop (audio_buf : List Int) (len channel : Int) :
    Nat → Int → Int → List Int → Option (Int × List Int)
  | 0, idx, max_amp, reads => if idx < len then none else some (max_amp, reads)
  | fuel + 1, idx, max_amp, reads =>
    if idx < len then
      if idx + channel < 0 then none
      else
        match audio_buf[(idx + channel).toNat]? with
        | none => none
        | some sample =>
          let amp := if sample < 0 then -sample else sample
          let max_amp := if amp > max_amp then amp else max_amp
          get_max_amplitude_loop audio_buf len channel fuel (idx + 2) max_amp
            (reads ++ [idx + channel])
    else some (max_amp, reads)

/-- The function `get_max_amplitude` together with the list of indices it
read: the loop from `idx = 0`, `max_amp = 0` (with `len` passes allowed, more
than the loop takes), then `max_amp / 32768.0`. -/
def get_max_amplitude_traced (audio_buf : List Int) (len channel : Int) :
    Option (ℚ × List Int) :=
  (get_max_amplitude_loop audio_buf len channel len.toNat 0 0 []).map
    (fun r => ((r.1 : ℚ) / 32768, r.2))

/-- The value returned by `get_max_amplitude`. -/
def get_max_amplitude (audio_buf : List Int) (len channel : Int) : Option ℚ :=
  (get_max_amplitude_traced audio_buf len channel).map Prod.fst

/-- The indices `2*i + channel`, `0 ≤ i < frames`, of one channel in an
interleaved two-channel block, in increasing order. -/
def channel_indices (frames : Nat) (channel : Int) : List Int :=
  (List.range frames).map (fun (i : Nat) => 2 * (i : Int) + channel)

/-- The samples of one channel of an interleaved two-channel block. -/
def channel_samples (audio_buf : List Int) (frames : Nat) (channel : Int) : List Int :=
  (channel_indices frames channel).map (fun j => audio_buf.getD j.toNat 0)

/-- The specification's peak: the largest `|sample|` of a list of samples,
`0` for the empty list. -/
def peak_magnitude (samples : List Int) : Int :=
  samples.foldr (fun s acc => max |s| acc) 0

/-! ### `get_force`, exact reading

`logf`, `atanf`, `powf` and `M_1_PI` come from the C library; they are taken
at their exact real values, so these definitions are not executable. -/

/-- The C library function `logf` on a non-negative argument, as an exact
value: `logf(0)` is minus infinity. -/
noncomputable def logf (x : ℝ) : EReal :=
  if x = 0 then ⊥ else ((Real.log x : ℝ) : EReal)

/-- The C library function `atanf` as an exact value, with
`atanf(±∞) = ±π/2`. -/
noncomputable def atanf (x : EReal) : ℝ :=
  if x = ⊤ then Real.pi / 2 else if x = ⊥ then -(Real.pi / 2) else Real.arctan x.toReal

/-- The constant `M_1_PI` of `math.h`, `1/π`. -/
noncomputable def M_1_PI : ℝ := 1 / Real.pi

/-- The constant `SIX_DBA = powf( 10, 0.3 )` (line 9). -/
noncomputable def SIX_DBA : ℝ := (10 : ℝ) ^ ((3 : ℝ) / 10)

/-- The function `get_force` (lines 46-53) on a non-negative amplitude.  The
local `force` ranges over the extended reals, since `logf(0)` is minus
infinity. -/
noncomputable def get_force (amplitude : ℝ) : ℝ :=
  let force : EReal := (logf amplitude / logf SIX_DBA + 7) / 7
  let force : EReal := if force < 0 then 0 else force
  (atanf (force * 2 - 1) * M_1_PI * 4 + 1) / 2

/-! ### `get_force` with rounding -/

/-- A result of `logf` on a non-negative argument: minus infinity (at `0`)
or a finite value. -/
inductive log_value where
  | minus_infinity : log_value
  | finite : ℚ → log_value
deriving DecidableEq

/-- The functions of the C library that `get_force` and the initialiser of
`SIX_DBA` call, as functions on `float` values. -/
structure c_library where
  logf : ℚ → log_value
  atanf : ℚ → ℚ
  powf : ℚ → ℚ → ℚ

/-- The `double` constant `M_1_PI` of `math.h`, written there as
`0.31830988618379067154`. -/
def M_1_PI_ieee : ℚ := to_double (31830988618379067154 / 10 ^ 20)

/-- The constant `SIX_DBA = powf( 10, 0.3 )` (line 9); the `double` literal
`0.3` is converted to `float` for the call. -/
def SIX_DBA_ieee (L : c_library) : ℚ := L.powf 10 (to_float (to_double (3 / 10)))

/-- The function `get_force` (lines 46-53) with the rounding of every
operation: line 47 in `float`; on line 52 the argument of `atanf` in `float`,
the product with the `double` `M_1_PI` and what follows in `double`, and the
returned value converted to `float`.  When `logf( amplitude )` is minus
infinity and `logf( SIX_DBA )` is positive, `force` is minus infinity and
line 49 sets it to `0`.  The result is `none` in the cases that produce
another value that is not a finite number (`logf( SIX_DBA )` zero or
infinite, or minus infinity divided by a value that is not positive). -/
def get_force_ieee (L : c_library) (amplitude : ℚ) : Option ℚ :=
  let force : Option ℚ :=
    match L.logf amplitude, L.logf (SIX_DBA_ieee L) with
    | log_value.finite la, log_value.finite ls =>
      if ls = 0 then none
      else
        let force := to_float (to_float (to_float (la / ls) + 7) / 7)
        some (if force < 0 then 0 else force)
    | log_value.minus_infinity, log_value.finite ls => if 0 < ls then some 0 else none
    | _, log_value.minus_infinity => none
  force.map (fun force =>
    to_float (to_double (to_double (to_double (to_double
      (L.atanf (to_float (to_float (force * 2) - 1)) * M_1_PI_ieee) * 4) + 1) / 2)))

/-- The binary32 value nearest to a real number (a tie, which no argument
below meets, goes away from zero). -/
noncomputable def nearest_float (y : ℝ) : ℚ :=
  (round (y / (2 : ℝ) ^ (max (Int.log 2 |y|) (-126) - 23)) : ℚ) *
    (2 : ℚ) ^ (max (Int.log 2 |y|) (-126) - 23)

/-- A C library whose `logf`, `atanf` and `powf` return the binary32 value
nearest to the exact result, and `logf(0)` is minus infinity. -/
noncomputable def c_library_nearest : c_library :=
  { logf := fun x =>
      if x = 0 then log_value.minus_infinity
      else log_value.finite (nearest_float (Real.log (x : ℝ)))
    atanf := fun x => nearest_float (Real.arctan (x : ℝ))
    powf := fun x y => nearest_float ((x : ℝ) ^ (y : ℝ)) }

/-! ## The sprung mass: general lemmas -/

theorem model_loop_add (force x_min x_max : ℚ) (a b : Nat) (sm : sprung_mass) :
    model_loop force x_min x_max (a + b) sm =
      model_loop force x_min x_max b (model_loop force x_min x_max a sm) := by
  induction a generalizing sm with
  | zero => simp [model_loop]
  | succ n ih => rw [Nat.succ_add]; simp only [model_loop]; exact ih _

theorem model_loop_eq_iterate (force x_min x_max : ℚ) (n : Nat) (sm : sprung_mass) :
    model_loop force x_min x_max n sm = (model_step force x_min x_max)^[n] sm := by
  induction n generalizing sm with
  | zero => rfl
  | succ n ih => simp only [model_loop, Function.iterate_succ, Function.comp_apply]; exact ih _

theorem model_loop_last (force x_min x_max : ℚ) (n : Nat) (sm : sprung_mass) :
    model_loop force x_min x_max (n + 1) sm =
      model_step force x_min x_max (model_loop force x_min x_max n sm) := by
  rw [model_loop_add]; rfl

theorem model_loop_fixed (force x_min x_max : ℚ) (sm : sprung_mass)
    (h : model_step force x_min x_max sm = sm) (n : Nat) :
    model_loop force x_min x_max n sm = sm := by
  induction n with
  | zero => rfl
  | succ n ih => simp only [model_loop, h]; exact ih

/-- After one pass of the loop body, the displacement before the last
integration lies between the bounds. -/
theorem model_step_pre_integration (force x_min x_max : ℚ) (sm : sprung_mass)
    (hb : x_min ≤ x_max) :
    x_min ≤ (model_step force x_min x_max sm).x - (model_step force x_min x_max sm).v * (1 / 1000) ∧
    (model_step force x_min x_max sm).x - (model_step force x_min x_max sm).v * (1 / 1000) ≤ x_max := by
  unfold model_step
  by_cases h1 : sm.x < x_min
  · have h2 : ¬ x_min > x_max := not_lt.mpr hb
    simp [h1, h2, hb]
  · by_cases h2 : sm.x > x_max
    · simp [h1, h2, hb]
    · simp only [h1, h2, if_false]
      push_neg at h1 h2
      constructor <;> simp [h1, h2]

/-- A call of at least one millisecond: the displacement before the last
integration lies between the bounds. -/
theorem model_pre_integration (sm : sprung_mass) (force x_min x_max : ℚ) (millis : Int)
    (hb : x_min ≤ x_max) (h : 1 ≤ millis) :
    x_min ≤ (model sm force x_min x_max millis).2.x -
      (model sm force x_min x_max millis).2.v * (1 / 1000) ∧
    (model sm force x_min x_max millis).2.x -
      (model sm force x_min x_max millis).2.v * (1 / 1000) ≤ x_max := by
  obtain ⟨n, hn⟩ : ∃ n : Nat, millis.toNat = n + 1 := by
    refine ⟨millis.toNat - 1, ?_⟩
    have : 1 ≤ millis.toNat := by omega
    omega
  simp only [model, hn, model_loop_last]
  exact model_step_pre_integration force x_min x_max _ hb

/-- Two calls in a row under the same force and bounds amount to one call
for the total duration. -/
theorem model_model (sm : sprung_mass) (force x_min x_max : ℚ) (a b : Int)
    (ha : 0 ≤ a) (hb : 0 ≤ b) :
    model (model sm force x_min x_max a).2 force x_min x_max b =
      model sm force x_min x_max (a + b) := by
  have e : (a + b).toNat = a.toNat + b.toNat := Int.toNat_add ha hb
  simp only [model, e, model_loop_add]

/-- Two timer ticks in a row, at `t1` and then at `t2`, leave the globals as
one tick at `t2` does. -/
theorem timer_callback_twice (g : globals) (t1 t2 : Int) (h1 : g.time ≤ t1) (h2 : t1 ≤ t2) :
    timer_callback (timer_callback g t1) t2 = timer_callback g t2 := by
  have e : t1 - g.time + (t2 - t1) = t2 - g.time := by ring
  simp only [timer_callback, model_model _ _ 0 1 (t1 - g.time) (t2 - t1) (by omega) (by omega), e]

theorem model_loop_chain (force x_min x_max : ℚ) (a b : Nat) (s0 s1 s2 : sprung_mass)
    (h1 : model_loop force x_min x_max a s0 = s1) (h2 : model_loop force x_min x_max b s1 = s2) :
    model_loop force x_min x_max (a + b) s0 = s2 := by
  rw [model_loop_add, h1, h2]

/-! ## The sprung mass under zero force from the initial state

The states after every 50 passes are computed one block of 50 at a time. -/

theorem zero_force_150 :
    model_loop 0 0 1 150 left_mass = mass_at (146387 / 1000000) (-5083 / 1000) := by
  have c50 : model_loop 0 0 1 50 left_mass = mass_at (50557 / 62500) (-6343 / 1000) := by
    decide!
  have c100 : model_loop 0 0 1 100 left_mass = mass_at (455793 / 1000000) (-1417 / 200) :=
    model_loop_chain 0 0 1 50 50 _ _ _ c50 (by decide!)
  have c150 : model_loop 0 0 1 150 left_mass = mass_at (146387 / 1000000) (-5083 / 1000) :=
    model_loop_chain 0 0 1 100 50 _ _ _ c100 (by decide!)
  exact c150

theorem zero_force_1150 : model_loop 0 0 1 1150 left_mass = settled := by
  have c150 := zero_force_150
  have c200 : model_loop 0 0 1 200 left_mass = mass_at (19761 / 500000) (1253 / 500) :=
    model_loop_chain 0 0 1 150 50 _ _ _ c150 (by decide!)
  have c250 : model_loop 0 0 1 250 left_mass = mass_at (55397 / 500000) (531 / 1000) :=
    model_loop_chain 0 0 1 200 50 _ _ _ c200 (by decide!)
  have c300 : model_loop 0 0 1 300 left_mass = mass_at (10669 / 100000) (-263 / 500) :=
    model_loop_chain 0 0 1 250 50 _ _ _ c250 (by decide!)
  have c350 : model_loop 0 0 1 350 left_mass = mass_at (7027 / 100000) (-103 / 125) :=
    model_loop_chain 0 0 1 300 50 _ _ _ c300 (by decide!)
  have c400 : model_loop 0 0 1 400 left_mass = mass_at (30733 / 1000000) (-713 / 1000) :=
    model_loop_chain 0 0 1 350 50 _ _ _ c350 (by decide!)
  have c450 : model_loop 0 0 1 450 left_mass = mass_at (531 / 250000) (-427 / 1000) :=
    model_loop_chain 0 0 1 400 50 _ _ _ c400 (by decide!)
  have c500 : model_loop 0 0 1 500 left_mass = mass_at (5913 / 500000) (161 / 1000) :=
    model_loop_chain 0 0 1 450 50 _ _ _ c450 (by decide!)
  have c550 : model_loop 0 0 1 550 left_mass = mass_at (379 / 25000) (-9 / 1000) :=
    model_loop_chain 0 0 1 500 50 _ _ _ c500 (by decide!)
  have c600 : model_loop 0 0 1 600 left_mass = mass_at (12511 / 1000000) (-83 / 1000) :=
    model_loop_chain 0 0 1 550 50 _ _ _ c550 (by decide!)
  have c650 : model_loop 0 0 1 650 left_mass = mass_at (2019 / 250000) (-89 / 1000) :=
    model_loop_chain 0 0 1 600 50 _ _ _ c600 (by decide!)
  have c700 : model_loop 0 0 1 700 left_mass = mass_at (1813 / 500000) (-89 / 1000) :=
    model_loop_chain 0 0 1 650 50 _ _ _ c650 (by decide!)
  have c750 : model_loop 0 0 1 750 left_mass = mass_at (243 / 1000000) (3 / 50) :=
    model_loop_chain 0 0 1 700 50 _ _ _ c700 (by decide!)
  have c800 : model_loop 0 0 1 800 left_mass = mass_at (611 / 250000) (4 / 125) :=
    model_loop_chain 0 0 1 750 50 _ _ _ c750 (by decide!)
  have c850 : model_loop 0 0 1 850 left_mass = mass_at (1809 / 500000) (17 / 1000) :=
    model_loop_chain 0 0 1 800 50 _ _ _ c800 (by decide!)
  have c900 : model_loop 0 0 1 900 left_mass = mass_at (849 / 200000) (9 / 1000) :=
    model_loop_chain 0 0 1 850 50 _ _ _ c850 (by decide!)
  have c950 : model_loop 0 0 1 950 left_mass = mass_at (2289 / 500000) (1 / 200) :=
    model_loop_chain 0 0 1 900 50 _ _ _ c900 (by decide!)
  have c1000 : model_loop 0 0 1 1000 left_mass = mass_at (2379 / 500000) (3 / 1000) :=
    model_loop_chain 0 0 1 950 50 _ _ _ c950 (by decide!)
  have c1050 : model_loop 0 0 1 1050 left_mass = mass_at (97 / 20000) (1 / 1000) :=
    model_loop_chain 0 0 1 1000 50 _ _ _ c1000 (by decide!)
  have c1100 : model_loop 0 0 1 1100 left_mass = mass_at (49 / 10000) (1 / 1000) :=
    model_loop_chain 0 0 1 1050 50 _ _ _ c1050 (by decide!)
  have c1150 : model_loop 0 0 1 1150 left_mass = settled :=
    model_loop_chain 0 0 1 1100 50 _ _ _ c1100 (by decide!)
  exact c1150

theorem settled_fixed : model_step 0 0 1 settled = settled := by decide!

/-- From 1150 passes on, the mass released at `x = 1` under zero force rests
at `x = 123/25000`, `v = 0`. -/
theorem zero_force_settles (n : Nat) (h : 1150 ≤ n) :
    model_loop 0 0 1 n left_mass = settled := by
  obtain ⟨k, rfl⟩ := Nat.exists_eq_add_of_le h
  rw [model_loop_add, zero_force_1150]
  exact model_loop_fixed 0 0 1 settled settled_fixed k

/-! ## Rounding: the properties used below -/

theorem log2_loop_eq_log (fuel n : Nat) (h : n ≤ fuel) : log2_loop fuel n = Nat.log 2 n := by
  induction fuel generalizing n with
  | zero =>
    have : n = 0 := by omega
    subst this
    simp [log2_loop]
  | succ k ih =>
    unfold log2_loop
    by_cases h2 : n < 2
    · rw [if_pos h2, Nat.log_of_lt h2]
    · rw [if_neg h2, ih (n / 2) (by omega)]
      exact (Nat.log_of_one_lt_of_le (by norm_num) (by omega)).symm

theorem nat_log2_eq_log (n : Nat) : nat_log2 n = Nat.log 2 n :=
  log2_loop_eq_log n n le_rfl

theorem nat_log2_mono {a b : Nat} (h : a ≤ b) : nat_log2 a ≤ nat_log2 b := by
  rw [nat_log2_eq_log, nat_log2_eq_log]
  exact Nat.log_mono_right h

theorem ilog2_nonpos_of_le_one (q : ℚ) (h0 : 0 < q) (h1 : q ≤ 1) : ilog2 q ≤ 0 := by
  have hnum : 0 < q.num := Rat.num_pos.mpr h0
  have hle : q.num ≤ (q.den : Int) := by
    have hd : (0 : ℚ) < (q.den : ℚ) := by exact_mod_cast q.den_pos
    have hq : (q.num : ℚ) / (q.den : ℚ) ≤ 1 := by rw [Rat.num_div_den]; exact h1
    have := (div_le_one hd).mp hq
    exact_mod_cast this
  have hnat : q.num.natAbs ≤ q.den := by omega
  have hm := nat_log2_mono hnat
  unfold ilog2
  simp only
  split_ifs <;> omega

/-- The integer chosen by rounding to nearest, ties to even. -/
theorem round_cases (p : Nat) (emin : Int) (q : ℚ) :
    ∃ r : Int, round_nearest_even p emin q = (r : ℚ) * (2 : ℚ) ^ ulp_exponent p emin q ∧
      (r = ⌊q / (2 : ℚ) ^ ulp_exponent p emin q⌋ ∨
        (r = ⌊q / (2 : ℚ) ^ ulp_exponent p emin q⌋ + 1 ∧
          1 / 2 ≤ q / (2 : ℚ) ^ ulp_exponent p emin q -
            ⌊q / (2 : ℚ) ^ ulp_exponent p emin q⌋)) := by
  unfold round_nearest_even
  simp only
  split_ifs with h1 h2 h3
  · exact ⟨_, rfl, Or.inl rfl⟩
  · exact ⟨_, rfl, Or.inr ⟨rfl, h2.le⟩⟩
  · exact ⟨_, rfl, Or.inl rfl⟩
  · exact ⟨_, rfl, Or.inr ⟨rfl, not_lt.mp h1⟩⟩

/-- Rounding does not cross a whole multiple of the unit in the last place
that lies above the argument. -/
theorem round_le_of_le (p : Nat) (emin : Int) (q : ℚ) (n : Int)
    (h : q ≤ (n : ℚ) * (2 : ℚ) ^ ulp_exponent p emin q) :
    round_nearest_even p emin q ≤ (n : ℚ) * (2 : ℚ) ^ ulp_exponent p emin q := by
  obtain ⟨r, hr, hcase⟩ := round_cases p emin q
  have hu : (0 : ℚ) < (2 : ℚ) ^ ulp_exponent p emin q := by positivity
  rw [hr]
  have hm : q / (2 : ℚ) ^ ulp_exponent p emin q ≤ n := by
    rw [div_le_iff₀ hu]; exact h
  have hfl : ⌊q / (2 : ℚ) ^ ulp_exponent p emin q⌋ ≤ n := by
    exact_mod_cast (Int.floor_le _).trans hm
  have hrn : r ≤ n := by
    rcases hcase with rfl | ⟨rfl, hfrac⟩
    · exact hfl
    · rcases hfl.lt_or_eq with hlt | heq
      · omega
      · exfalso
        rw [heq] at hfrac
        linarith
  have : (r : ℚ) ≤ n := by exact_mod_cast hrn
  exact mul_le_mul_of_nonneg_right this hu.le

/-- Rounding does not cross a whole multiple of the unit in the last place
that lies below the argument. -/
theorem le_round_of_le (p : Nat) (emin : Int) (q : ℚ) (n : Int)
    (h : (n : ℚ) * (2 : ℚ) ^ ulp_exponent p emin q ≤ q) :
    (n : ℚ) * (2 : ℚ) ^ ulp_exponent p emin q ≤ round_nearest_even p emin q := by
  obtain ⟨r, hr, hcase⟩ := round_cases p emin q
  have hu : (0 : ℚ) < (2 : ℚ) ^ ulp_exponent p emin q := by positivity
  rw [hr]
  have hm : (n : ℚ) ≤ q / (2 : ℚ) ^ ulp_exponent p emin q := by
    rw [le_div_iff₀ hu]; exact h
  have hfl : n ≤ ⌊q / (2 : ℚ) ^ ulp_exponent p emin q⌋ := Int.le_floor.mpr hm
  have hrn : n ≤ r := by
    rcases hcase with rfl | ⟨rfl, _⟩
    · exact hfl
    · omega
  have : (n : ℚ) ≤ r := by exact_mod_cast hrn
  exact mul_le_mul_of_nonneg_right this hu.le

theorem round_nonneg (p : Nat) (emin : Int) (q : ℚ) (h : 0 ≤ q) : 0 ≤ round_nearest_even p emin q := by
  have := le_round_of_le p emin q 0 (by simpa using h)
  simpa using this

theorem round_nonpos (p : Nat) (emin : Int) (q : ℚ) (h : q ≤ 0) : round_nearest_even p emin q ≤ 0 := by
  have := round_le_of_le p emin q 0 (by simpa using h)
  simpa using this

theorem round_le_one (p : Nat) (emin : Int) (hp : 1 ≤ p) (he : emin ≤ 0) (q : ℚ) (h : q ≤ 1) :
    round_nearest_even p emin q ≤ 1 := by
  rcases le_or_lt q 0 with h0 | h0
  · exact (round_nonpos p emin q h0).trans zero_le_one
  · have he := ilog2_nonpos_of_le_one q h0 h
    obtain ⟨k, hk⟩ : ∃ k : Nat, ulp_exponent p emin q = -(k : Int) :=
      ⟨(-(ulp_exponent p emin q)).toNat, by unfold ulp_exponent; omega⟩
    have hone : (((2 ^ k : Nat) : Int) : ℚ) * (2 : ℚ) ^ ulp_exponent p emin q = 1 := by
      rw [hk, zpow_neg, zpow_natCast]
      push_cast
      field_simp
    have := round_le_of_le p emin q ((2 ^ k : Nat) : Int) (by rw [hone]; exact h)
    rwa [hone] at this

theorem abs_eq_natAbs_div_den (q : ℚ) : |q| = (q.num.natAbs : ℚ) / (q.den : ℚ) := by
  have hd : (0 : ℚ) < (q.den : ℚ) := by exact_mod_cast q.den_pos
  conv_lhs => rw [← Rat.num_div_den q]
  rw [abs_div, abs_of_pos hd, Nat.cast_natAbs, Int.cast_abs]

/-- The binade found by `ilog2`: `2^e ≤ |q| < 2^(e+1)` for `q ≠ 0`. -/
theorem ilog2_spec (q : ℚ) (hq : q ≠ 0) :
    (2 : ℚ) ^ ilog2 q ≤ |q| ∧ |q| < (2 : ℚ) ^ (ilog2 q + 1) := by
  have hn : q.num.natAbs ≠ 0 := by
    simpa [Int.natAbs_eq_zero] using hq
  have hd : q.den ≠ 0 := q.den_nz
  have hdpos : (0 : ℚ) < (q.den : ℚ) := by exact_mod_cast q.den_pos
  have ha1 : ((2 : ℚ) ^ (nat_log2 q.num.natAbs)) ≤ (q.num.natAbs : ℚ) := by
    rw [nat_log2_eq_log]
    exact_mod_cast Nat.pow_log_le_self 2 hn
  have ha2 : (q.num.natAbs : ℚ) < (2 : ℚ) ^ (nat_log2 q.num.natAbs + 1) := by
    rw [nat_log2_eq_log]
    exact_mod_cast Nat.lt_pow_succ_log_self (by norm_num) _
  have hb1 : ((2 : ℚ) ^ (nat_log2 q.den)) ≤ (q.den : ℚ) := by
    rw [nat_log2_eq_log]
    exact_mod_cast Nat.pow_log_le_self 2 hd
  have hb2 : (q.den : ℚ) < (2 : ℚ) ^ (nat_log2 q.den + 1) := by
    rw [nat_log2_eq_log]
    exact_mod_cast Nat.lt_pow_succ_log_self (by norm_num) _
  have h2 : (2 : ℚ) ≠ 0 := by norm_num
  have hlow : (2 : ℚ) ^ ((nat_log2 q.num.natAbs : Int) - (nat_log2 q.den : Int) - 1) < |q| := by
    rw [abs_eq_natAbs_div_den, lt_div_iff₀ hdpos]
    have e : (2 : ℚ) ^ ((nat_log2 q.num.natAbs : Int) - (nat_log2 q.den : Int) - 1) =
        (2 : ℚ) ^ (nat_log2 q.num.natAbs) / (2 : ℚ) ^ (nat_log2 q.den + 1) := by
      rw [show ((nat_log2 q.num.natAbs : Int) - (nat_log2 q.den : Int) - 1) =
        (nat_log2 q.num.natAbs : Int) - ((nat_log2 q.den + 1 : Nat) : Int) by push_cast; ring,
        zpow_sub₀ h2, zpow_natCast, zpow_natCast]
    rw [e, div_mul_eq_mul_div, div_lt_iff₀ (by positivity)]
    calc (2 : ℚ) ^ nat_log2 q.num.natAbs * (q.den : ℚ)
        < (2 : ℚ) ^ nat_log2 q.num.natAbs * (2 : ℚ) ^ (nat_log2 q.den + 1) := by
          exact mul_lt_mul_of_pos_left hb2 (by positivity)
      _ ≤ (q.num.natAbs : ℚ) * (2 : ℚ) ^ (nat_log2 q.den + 1) := by
          exact mul_le_mul_of_nonneg_right ha1 (by positivity)
  have hhigh : |q| < (2 : ℚ) ^ ((nat_log2 q.num.natAbs : Int) - (nat_log2 q.den : Int) + 1) := by
    rw [abs_eq_natAbs_div_den, div_lt_iff₀ hdpos]
    have e : (2 : ℚ) ^ ((nat_log2 q.num.natAbs : Int) - (nat_log2 q.den : Int) + 1) =
        (2 : ℚ) ^ (nat_log2 q.num.natAbs + 1) / (2 : ℚ) ^ (nat_log2 q.den) := by
      rw [show ((nat_log2 q.num.natAbs : Int) - (nat_log2 q.den : Int) + 1) =
        ((nat_log2 q.num.natAbs + 1 : Nat) : Int) - (nat_log2 q.den : Int) by push_cast; ring,
        zpow_sub₀ h2, zpow_natCast, zpow_natCast]
    rw [e, div_mul_eq_mul_div, lt_div_iff₀ (by positivity)]
    calc (q.num.natAbs : ℚ) * (2 : ℚ) ^ nat_log2 q.den
        < (2 : ℚ) ^ (nat_log2 q.num.natAbs + 1) * (2 : ℚ) ^ nat_log2 q.den := by
          exact mul_lt_mul_of_pos_right ha2 (by positivity)
      _ ≤ (2 : ℚ) ^ (nat_log2 q.num.natAbs + 1) * (q.den : ℚ) := by
          exact mul_le_mul_of_nonneg_left hb1 (by positivity)
  unfold ilog2
  simp only
  split_ifs with h
  · refine ⟨hlow.le, ?_⟩
    rw [sub_add_cancel]
    exact h
  · exact ⟨not_lt.mp h, hhigh⟩

/-- The error of rounding is at most half a unit in the last place. -/
theorem round_error (p : Nat) (emin : Int) (q : ℚ) :
    |round_nearest_even p emin q - q| ≤ (2 : ℚ) ^ ulp_exponent p emin q / 2 := by
  have hu : (0 : ℚ) < (2 : ℚ) ^ ulp_exponent p emin q := by positivity
  have hfl := Int.floor_le (q / (2 : ℚ) ^ ulp_exponent p emin q)
  have hlt := Int.lt_floor_add_one (q / (2 : ℚ) ^ ulp_exponent p emin q)
  have key : ∀ r : Int, |(r : ℚ) - q / (2 : ℚ) ^ ulp_exponent p emin q| ≤ 1 / 2 →
      |(r : ℚ) * (2 : ℚ) ^ ulp_exponent p emin q - q| ≤
        (2 : ℚ) ^ ulp_exponent p emin q / 2 := by
    intro r hr
    have e : (r : ℚ) * (2 : ℚ) ^ ulp_exponent p emin q - q =
        ((r : ℚ) - q / (2 : ℚ) ^ ulp_exponent p emin q) *
          (2 : ℚ) ^ ulp_exponent p emin q := by
      field_simp
    rw [e, abs_mul, abs_of_pos hu]
    calc |(r : ℚ) - q / (2 : ℚ) ^ ulp_exponent p emin q| *
          (2 : ℚ) ^ ulp_exponent p emin q
        ≤ 1 / 2 * (2 : ℚ) ^ ulp_exponent p emin q :=
          mul_le_mul_of_nonneg_right hr hu.le
      _ = (2 : ℚ) ^ ulp_exponent p emin q / 2 := by ring
  unfold round_nearest_even
  simp only
  split_ifs with h1 h2 h3
  · apply key; rw [abs_le]; constructor <;> linarith
  · apply key; push_cast; rw [abs_le]; constructor <;> linarith
  · apply key; rw [abs_le]; constructor <;> linarith
  · apply key; push_cast; rw [abs_le]; constructor <;> linarith

/-- The integer chosen by rounding is a nearest one. -/
theorem round_cases_near (p : Nat) (emin : Int) (q : ℚ) :
    ∃ r : Int, round_nearest_even p emin q = (r : ℚ) * (2 : ℚ) ^ ulp_exponent p emin q ∧
      ∀ n : Int, |(r : ℚ) - q / (2 : ℚ) ^ ulp_exponent p emin q| ≤
        |(n : ℚ) - q / (2 : ℚ) ^ ulp_exponent p emin q| := by
  have hfl := Int.floor_le (q / (2 : ℚ) ^ ulp_exponent p emin q)
  have hlt := Int.lt_floor_add_one (q / (2 : ℚ) ^ ulp_exponent p emin q)
  have low : ∀ n : Int, n ≤ ⌊q / (2 : ℚ) ^ ulp_exponent p emin q⌋ →
      q / (2 : ℚ) ^ ulp_exponent p emin q - ⌊q / (2 : ℚ) ^ ulp_exponent p emin q⌋ ≤
        |(n : ℚ) - q / (2 : ℚ) ^ ulp_exponent p emin q| := by
    intro n hn
    have : (n : ℚ) ≤ (⌊q / (2 : ℚ) ^ ulp_exponent p emin q⌋ : ℚ) := by exact_mod_cast hn
    rw [abs_sub_comm, abs_of_nonneg (by linarith)]
    linarith
  have high : ∀ n : Int, ⌊q / (2 : ℚ) ^ ulp_exponent p emin q⌋ + 1 ≤ n →
      (⌊q / (2 : ℚ) ^ ulp_exponent p emin q⌋ : ℚ) + 1 - q / (2 : ℚ) ^ ulp_exponent p emin q ≤
        |(n : ℚ) - q / (2 : ℚ) ^ ulp_exponent p emin q| := by
    intro n hn
    have : (⌊q / (2 : ℚ) ^ ulp_exponent p emin q⌋ : ℚ) + 1 ≤ (n : ℚ) := by exact_mod_cast hn
    rw [abs_of_nonneg (by linarith)]
    linarith
  have down : q / (2 : ℚ) ^ ulp_exponent p emin q - ⌊q / (2 : ℚ) ^ ulp_exponent p emin q⌋ ≤ 1 / 2 →
      ∀ n : Int, |((⌊q / (2 : ℚ) ^ ulp_exponent p emin q⌋ : Int) : ℚ) -
          q / (2 : ℚ) ^ ulp_exponent p emin q| ≤
        |(n : ℚ) - q / (2 : ℚ) ^ ulp_exponent p emin q| := by
    intro hf n
    rw [abs_sub_comm, abs_of_nonneg (by linarith)]
    rcases le_or_lt n ⌊q / (2 : ℚ) ^ ulp_exponent p emin q⌋ with hn | hn
    · exact low n hn
    · have := high n (by omega)
      linarith
  have up : 1 / 2 ≤ q / (2 : ℚ) ^ ulp_exponent p emin q - ⌊q / (2 : ℚ) ^ ulp_exponent p emin q⌋ →
      ∀ n : Int, |((⌊q / (2 : ℚ) ^ ulp_exponent p emin q⌋ + 1 : Int) : ℚ) -
          q / (2 : ℚ) ^ ulp_exponent p emin q| ≤
        |(n : ℚ) - q / (2 : ℚ) ^ ulp_exponent p emin q| := by
    intro hf n
    push_cast
    rw [abs_of_nonneg (by linarith)]
    rcases le_or_lt n ⌊q / (2 : ℚ) ^ ulp_exponent p emin q⌋ with hn | hn
    · have := low n hn
      linarith
    · exact high n (by omega)
  unfold round_nearest_even
  simp only
  split_ifs with h1 h2 h3
  · exact ⟨_, rfl, down h1.le⟩
  · exact ⟨_, rfl, up h2.le⟩
  · exact ⟨_, rfl, down (not_lt.mp h2)⟩
  · exact ⟨_, rfl, up (not_lt.mp h1)⟩

/-- Rounding is at least as close to the argument as any whole multiple of
the unit in the last place. -/
theorem round_nearest (p : Nat) (emin : Int) (q : ℚ) (n : Int) :
    |round_nearest_even p emin q - q| ≤ |(n : ℚ) * (2 : ℚ) ^ ulp_exponent p emin q - q| := by
  obtain ⟨r, hr, hnear⟩ := round_cases_near p emin q
  have hu : (0 : ℚ) < (2 : ℚ) ^ ulp_exponent p emin q := by positivity
  have e : ∀ k : Int, (k : ℚ) * (2 : ℚ) ^ ulp_exponent p emin q - q =
      ((k : ℚ) - q / (2 : ℚ) ^ ulp_exponent p emin q) * (2 : ℚ) ^ ulp_exponent p emin q := by
    intro k
    field_simp
  rw [hr, e r, e n, abs_mul, abs_mul, abs_of_pos hu]
  exact mul_le_mul_of_nonneg_right (hnear n) hu.le

theorem abs_round_le (p : Nat) (emin : Int) (q : ℚ) :
    |round_nearest_even p emin q| ≤ 2 * |q| := by
  have h := round_nearest p emin q 0
  simp only [Int.cast_zero, zero_mul, zero_sub, abs_neg] at h
  have := abs_sub_abs_le_abs_sub (round_nearest_even p emin q) q
  linarith

theorem round_sub_one_le (p : Nat) (emin : Int) (hp : 1 ≤ p) (he : emin ≤ 0) (q : ℚ)
    (hq : 1 ≤ q) : round_nearest_even p emin q - 1 ≤ 2 * (q - 1) := by
  have hq0 : q ≠ 0 := by linarith
  have hspec := ilog2_spec q hq0
  rw [abs_of_pos (by linarith)] at hspec
  rcases le_or_lt (ulp_exponent p emin q) 0 with hue | hue
  · obtain ⟨k, hk⟩ : ∃ k : Nat, ulp_exponent p emin q = -(k : Int) :=
      ⟨(-(ulp_exponent p emin q)).toNat, by omega⟩
    have hone : (((2 ^ k : Nat) : Int) : ℚ) * (2 : ℚ) ^ ulp_exponent p emin q = 1 := by
      rw [hk, zpow_neg, zpow_natCast]
      push_cast
      field_simp
    have h := round_nearest p emin q ((2 ^ k : Nat) : Int)
    rw [hone, abs_sub_comm 1 q, abs_of_nonneg (by linarith : (0 : ℚ) ≤ q - 1)] at h
    have := (abs_le.mp h).2
    linarith
  · have h := round_error p emin q
    have he1 : 1 ≤ ilog2 q := by unfold ulp_exponent at hue; omega
    have hue' : ulp_exponent p emin q ≤ ilog2 q := by unfold ulp_exponent; omega
    have h2 : (2 : ℚ) ^ ulp_exponent p emin q ≤ (2 : ℚ) ^ ilog2 q :=
      zpow_le_zpow_right₀ (by norm_num) hue'
    have h3 : (2 : ℚ) ≤ (2 : ℚ) ^ ilog2 q := by
      have := zpow_le_zpow_right₀ (a := (2 : ℚ)) (by norm_num) he1
      simpa using this
    have := (abs_le.mp h).2
    linarith [hspec.1]

/-! ## The sprung mass with rounding -/

theorem to_float_nonneg (q : ℚ) (h : 0 ≤ q) : 0 ≤ to_float q := round_nonneg 24 (-126) q h

theorem to_float_nonpos (q : ℚ) (h : q ≤ 0) : to_float q ≤ 0 := round_nonpos 24 (-126) q h

theorem to_float_le_one (q : ℚ) (h : q ≤ 1) : to_float q ≤ 1 :=
  round_le_one 24 (-126) (by norm_num) (by norm_num) q h

theorem to_double_nonneg (q : ℚ) (h : 0 ≤ q) : 0 ≤ to_double q := round_nonneg 53 (-1022) q h

theorem to_double_nonpos (q : ℚ) (h : q ≤ 0) : to_double q ≤ 0 := round_nonpos 53 (-1022) q h

theorem to_double_le_one (q : ℚ) (h : q ≤ 1) : to_double q ≤ 1 :=
  round_le_one 53 (-1022) (by norm_num) (by norm_num) q h

theorem to_double_milli_pos : 0 < to_double (1 / 1000) := by decide!

/-- The float sum of a displacement inside `[0, 1]` and a velocity increment
leaves `[0, 1]` only on the side of the sign of the velocity. -/
theorem integrate_one_sided (x_c v : ℚ) (h0 : 0 ≤ x_c) (h1 : x_c ≤ 1) :
    (v ≤ 0 → to_float (to_double (x_c + to_double (v * to_double (1 / 1000)))) ≤ 1) ∧
    (0 ≤ v → 0 ≤ to_float (to_double (x_c + to_double (v * to_double (1 / 1000))))) := by
  have hd := to_double_milli_pos
  constructor
  · intro hv
    have h2 : to_double (v * to_double (1 / 1000)) ≤ 0 :=
      to_double_nonpos _ (mul_nonpos_of_nonpos_of_nonneg hv hd.le)
    exact to_float_le_one _ (to_double_le_one _ (by linarith))
  · intro hv
    have h2 : 0 ≤ to_double (v * to_double (1 / 1000)) :=
      to_double_nonneg _ (mul_nonneg hv hd.le)
    exact to_float_nonneg _ (to_double_nonneg _ (by linarith))

/-- The float sum of a displacement inside `[0, 1]` and a velocity increment
is outside `[0, 1]` by at most `|v| / 100`. -/
theorem integrate_bounded (x_c v : ℚ) (h0 : 0 ≤ x_c) (h1 : x_c ≤ 1) :
    -(|v| / 100) ≤ to_float (to_double (x_c + to_double (v * to_double (1 / 1000)))) ∧
    to_float (to_double (x_c + to_double (v * to_double (1 / 1000)))) ≤ 1 + |v| / 100 := by
  have hd : to_double (1 / 1000) = 1152921504606847 / 2 ^ 60 := by decide!
  have hδ : |to_double (v * to_double (1 / 1000))| ≤ |v| / 400 := by
    have h : |to_double (v * to_double (1 / 1000))| ≤ 2 * |v * to_double (1 / 1000)| :=
      abs_round_le 53 (-1022) _
    have hv := abs_nonneg v
    rw [hd] at h ⊢
    rw [abs_mul, abs_of_pos (by norm_num : (0 : ℚ) < 1152921504606847 / 2 ^ 60)] at h
    have : |v| * (1152921504606847 / 2 ^ 60) ≤ |v| / 800 := by
      have : (1152921504606847 / 2 ^ 60 : ℚ) ≤ 1 / 800 := by norm_num
      calc |v| * (1152921504606847 / 2 ^ 60) ≤ |v| * (1 / 800) :=
            mul_le_mul_of_nonneg_left this hv
        _ = |v| / 800 := by ring
    linarith
  have hv := abs_nonneg v
  have hδ' := abs_le.mp hδ
  constructor
  · rcases le_or_lt 0 (x_c + to_double (v * to_double (1 / 1000))) with hs | hs
    · have := to_float_nonneg _ (to_double_nonneg _ hs)
      linarith
    · have a1 : |to_double (x_c + to_double (v * to_double (1 / 1000)))| ≤
          2 * |x_c + to_double (v * to_double (1 / 1000))| := abs_round_le 53 (-1022) _
      have a2 : |to_float (to_double (x_c + to_double (v * to_double (1 / 1000))))| ≤
          2 * |to_double (x_c + to_double (v * to_double (1 / 1000)))| :=
        abs_round_le 24 (-126) _
      rw [abs_of_neg hs] at a1
      have := (abs_le.mp a2).1
      linarith
  · rcases le_or_lt (x_c + to_double (v * to_double (1 / 1000))) 1 with hs | hs
    · have := to_float_le_one _ (to_double_le_one _ hs)
      linarith
    · rcases le_or_lt (to_double (x_c + to_double (v * to_double (1 / 1000)))) 1 with hs1 | hs1
      · have := to_float_le_one _ hs1
        linarith
      · have b1 : to_double (x_c + to_double (v * to_double (1 / 1000))) - 1 ≤
            2 * (x_c + to_double (v * to_double (1 / 1000)) - 1) :=
          round_sub_one_le 53 (-1022) (by norm_num) (by norm_num) _ hs.le
        have b2 : to_float (to_double (x_c + to_double (v * to_double (1 / 1000)))) - 1 ≤
            2 * (to_double (x_c + to_double (v * to_double (1 / 1000))) - 1) :=
          round_sub_one_le 24 (-126) (by norm_num) (by norm_num) _ hs1.le
        linarith

/-- One pass of the loop body with rounding, bounds `0` and `1`: the new
displacement is the float sum of a displacement inside `[0, 1]` and the
increment of the new velocity. -/
theorem model_step_ieee_integrates (force : ℚ) (sm : sprung_mass) :
    ∃ x_c : ℚ, 0 ≤ x_c ∧ x_c ≤ 1 ∧
      (model_step_ieee force 0 1 sm).x =
        to_float (to_double (x_c +
          to_double ((model_step_ieee force 0 1 sm).v * to_double (1 / 1000)))) := by
  unfold model_step_ieee
  by_cases h1 : sm.x < 0
  · have h2 : ¬ (0 : ℚ) > 1 := by norm_num
    exact ⟨0, le_rfl, zero_le_one, by simp only [h1, h2, if_true, if_false]⟩
  · by_cases h2 : sm.x > 1
    · exact ⟨1, zero_le_one, le_rfl, by simp only [h1, h2, if_true, if_false]⟩
    · exact ⟨sm.x, not_lt.mp h1, not_lt.mp h2, by simp only [h1, h2, if_false]⟩

theorem model_loop_ieee_add (force x_min x_max : ℚ) (a b : Nat) (sm : sprung_mass) :
    model_loop_ieee force x_min x_max (a + b) sm =
      model_loop_ieee force x_min x_max b (model_loop_ieee force x_min x_max a sm) := by
  induction a generalizing sm with
  | zero => simp [model_loop_ieee]
  | succ n ih => rw [Nat.succ_add]; simp only [model_loop_ieee]; exact ih _

theorem model_loop_ieee_last (force x_min x_max : ℚ) (n : Nat) (sm : sprung_mass) :
    model_loop_ieee force x_min x_max (n + 1) sm =
      model_step_ieee force x_min x_max (model_loop_ieee force x_min x_max n sm) := by
  rw [model_loop_ieee_add]; rfl

/-- A call of at least one millisecond with rounding, bounds `0` and `1`. -/
theorem model_ieee_integrates (sm : sprung_mass) (force : ℚ) (millis : Int) (h : 1 ≤ millis) :
    ∃ x_c : ℚ, 0 ≤ x_c ∧ x_c ≤ 1 ∧
      (model_ieee sm force 0 1 millis).1 =
        to_float (to_double (x_c +
          to_double ((model_ieee sm force 0 1 millis).2.v * to_double (1 / 1000)))) := by
  obtain ⟨n, hn⟩ : ∃ n : Nat, millis.toNat = n + 1 := by
    refine ⟨millis.toNat - 1, ?_⟩
    have : 1 ≤ millis.toNat := by omega
    omega
  simp only [model_ieee, hn, model_loop_ieee_last]
  exact model_step_ieee_integrates force _

/-- The first pass from the initial state under zero force, with rounding:
`v = -0.2f`, `x = 0.9998f`.  Here `x − 0.001·v` is above `1`: under rounding
the displacement is not the exact sum of the clamped displacement and
`0.001·v`. -/
theorem model_step_ieee_first_pass :
    model_step_ieee 0 0 1 left_mass_ieee =
      mass_at_ieee (16773861 / 2 ^ 24) (-13421773 / 2 ^ 26) ∧
    (1 : ℚ) < 16773861 / 2 ^ 24 - (-13421773 / 2 ^ 26) * (1 / 1000) := by
  constructor
  · decide!
  · norm_num

set_option maxHeartbeats 4000000 in
/-- The run of 186 passes from the initial state under zero force, with
rounding, computed in blocks of 16 passes. -/
theorem zero_force_ieee_186 :
    model_loop_ieee 0 0 1 186 left_mass_ieee =
      mass_at_ieee (-6896907 / 2 ^ 32) (-3351247 / 2 ^ 20) := by
  have h1 : model_loop_ieee 0 0 1 16 left_mass_ieee =
      mass_at_ieee (511195 / 2 ^ 19) (-737411 / 2 ^ 18) := by decide!
  have h2 : model_loop_ieee 0 0 1 16 (mass_at_ieee (511195 / 2 ^ 19) (-737411 / 2 ^ 18)) =
      mass_at_ieee (15295101 / 2 ^ 24) (-2546991 / 2 ^ 19) := by decide!
  have h3 : model_loop_ieee 0 0 1 16 (mass_at_ieee (15295101 / 2 ^ 24) (-2546991 / 2 ^ 19)) =
      mass_at_ieee (13783087 / 2 ^ 24) (-13037993 / 2 ^ 21) := by decide!
  have h4 : model_loop_ieee 0 0 1 16 (mass_at_ieee (13783087 / 2 ^ 24) (-13037993 / 2 ^ 21)) =
      mass_at_ieee (5996193 / 2 ^ 23) (-14654897 / 2 ^ 21) := by decide!
  have h5 : model_loop_ieee 0 0 1 16 (mass_at_ieee (5996193 / 2 ^ 23) (-14654897 / 2 ^ 21)) =
      mass_at_ieee (10067185 / 2 ^ 24) (-476119 / 2 ^ 16) := by decide!
  have h6 : model_loop_ieee 0 0 1 16 (mass_at_ieee (10067185 / 2 ^ 24) (-476119 / 2 ^ 16)) =
      mass_at_ieee (2031109 / 2 ^ 22) (-1877213 / 2 ^ 18) := by decide!
  have h7 : model_loop_ieee 0 0 1 16 (mass_at_ieee (2031109 / 2 ^ 22) (-1877213 / 2 ^ 18)) =
      mass_at_ieee (12508055 / 2 ^ 25) (-14172551 / 2 ^ 21) := by decide!
  have h8 : model_loop_ieee 0 0 1 16 (mass_at_ieee (12508055 / 2 ^ 25) (-14172551 / 2 ^ 21)) =
      mass_at_ieee (9047789 / 2 ^ 25) (-6440353 / 2 ^ 20) := by decide!
  have h9 : model_loop_ieee 0 0 1 16 (mass_at_ieee (9047789 / 2 ^ 25) (-6440353 / 2 ^ 20)) =
      mass_at_ieee (1490229 / 2 ^ 23) (-11297357 / 2 ^ 21) := by decide!
  have h10 : model_loop_ieee 0 0 1 16 (mass_at_ieee (1490229 / 2 ^ 23) (-11297357 / 2 ^ 21)) =
      mass_at_ieee (13210131 / 2 ^ 27) (-4781505 / 2 ^ 20) := by decide!
  have h11 : model_loop_ieee 0 0 1 16 (mass_at_ieee (13210131 / 2 ^ 27) (-4781505 / 2 ^ 20)) =
      mass_at_ieee (8769833 / 2 ^ 28) (-7786723 / 2 ^ 21) := by decide!
  have h12 : model_loop_ieee 0 0 1 10 (mass_at_ieee (8769833 / 2 ^ 28) (-7786723 / 2 ^ 21)) =
      mass_at_ieee (-6896907 / 2 ^ 32) (-3351247 / 2 ^ 20) := by decide!
  have e : (186 : Nat) =
      16 + (16 + (16 + (16 + (16 + (16 + (16 + (16 + (16 + (16 + (16 + (10))))))))))) := by
    norm_num
  rw [e, model_loop_ieee_add, h1, model_loop_ieee_add, h2, model_loop_ieee_add, h3,
    model_loop_ieee_add, h4, model_loop_ieee_add, h5, model_loop_ieee_add, h6,
    model_loop_ieee_add, h7, model_loop_ieee_add, h8, model_loop_ieee_add, h9,
    model_loop_ieee_add, h10, model_loop_ieee_add, h11, h12]

/-! ## Claims about `model` -/

/-- C1, counterexample: released from the initial state `left_mass` under zero
force, the call `model( sm, 0, 0, 1, 186 )` returns the displacement
`-803/500000`, which is below the lower bound `0`; with rounding the call
returns `-6896907/2^32`, about `-0.0016058`.  The same in one pass: from
`x = 0`, `v = -1` the call `model( sm, 0, 0, 1, 1 )` returns `-123/125000`. -/
theorem model_displacement_leaves_bounds :
    (model left_mass 0 0 1 186).1 = -803 / 500000 ∧
    ¬ (0 ≤ (model left_mass 0 0 1 186).1 ∧ (model left_mass 0 0 1 186).1 ≤ 1) ∧
    (model (mass_at 0 (-1)) 0 0 1 1).1 = -123 / 125000 ∧
    (model_ieee left_mass_ieee 0 0 1 186).1 = -6896907 / 2 ^ 32 ∧
    ¬ (0 ≤ (model_ieee left_mass_ieee 0 0 1 186).1 ∧
      (model_ieee left_mass_ieee 0 0 1 186).1 ≤ 1) := by
  have e : model left_mass 0 0 1 186 =
      (-803 / 500000, mass_at (-803 / 500000) (-799 / 250)) := by
    have h : model_loop 0 0 1 186 left_mass = mass_at (-803 / 500000) (-799 / 250) :=
      model_loop_chain 0 0 1 150 36 _ _ _ zero_force_150 (by decide!)
    have e186 : (186 : Int).toNat = 186 := by decide
    simp only [model, e186, h]
    rfl
  have e' : model_ieee left_mass_ieee 0 0 1 186 =
      (-6896907 / 2 ^ 32, mass_at_ieee (-6896907 / 2 ^ 32) (-3351247 / 2 ^ 20)) := by
    have e186 : (186 : Int).toNat = 186 := by decide
    simp only [model_ieee, e186, zero_force_ieee_186]
    rfl
  rw [e, e']
  refine ⟨rfl, ?_, by decide!, rfl, ?_⟩ <;> norm_num

/-- C1, amended: for every starting state and every succession of calls
`model( sm, force, 0, 1, millis )`, after a further call of at least one
millisecond the returned value is the stored displacement `x`, and with `v`
the velocity after the call: `x` can lie outside `[0, 1]` only on the side
towards which the mass is moving (`v ≤ 0` gives `x ≤ 1`, `v ≥ 0` gives
`0 ≤ x`), and by at most `|v| / 100`.  This holds with the rounding of every
operation (the parts about `model_ieee`) and in exact arithmetic (the parts
about `model`). -/
theorem model_overshoot_one_sided (sm : sprung_mass) (calls : List (ℚ × Int))
    (force : ℚ) (millis : Int) (h : 1 ≤ millis) :
    (model_ieee (model_calls_ieee sm calls) force 0 1 millis).1 =
      (model_ieee (model_calls_ieee sm calls) force 0 1 millis).2.x ∧
    ((model_ieee (model_calls_ieee sm calls) force 0 1 millis).2.v ≤ 0 →
      (model_ieee (model_calls_ieee sm calls) force 0 1 millis).1 ≤ 1) ∧
    (0 ≤ (model_ieee (model_calls_ieee sm calls) force 0 1 millis).2.v →
      0 ≤ (model_ieee (model_calls_ieee sm calls) force 0 1 millis).1) ∧
    -(|(model_ieee (model_calls_ieee sm calls) force 0 1 millis).2.v| / 100) ≤
      (model_ieee (model_calls_ieee sm calls) force 0 1 millis).1 ∧
    (model_ieee (model_calls_ieee sm calls) force 0 1 millis).1 ≤
      1 + |(model_ieee (model_calls_ieee sm calls) force 0 1 millis).2.v| / 100 ∧
    ((model (model_calls sm calls) force 0 1 millis).2.v ≤ 0 →
      (model (model_calls sm calls) force 0 1 millis).1 ≤ 1) ∧
    (0 ≤ (model (model_calls sm calls) force 0 1 millis).2.v →
      0 ≤ (model (model_calls sm calls) force 0 1 millis).1) ∧
    -(|(model (model_calls sm calls) force 0 1 millis).2.v| / 100) ≤
      (model (model_calls sm calls) force 0 1 millis).1 ∧
    (model (model_calls sm calls) force 0 1 millis).1 ≤
      1 + |(model (model_calls sm calls) force 0 1 millis).2.v| / 100 := by
  obtain ⟨x_c, h0, h1, hx⟩ := model_ieee_integrates (model_calls_ieee sm calls) force millis h
  have hs := integrate_one_sided x_c
    (model_ieee (model_calls_ieee sm calls) force 0 1 millis).2.v h0 h1
  have hq := integrate_bounded x_c
    (model_ieee (model_calls_ieee sm calls) force 0 1 millis).2.v h0 h1
  have hm := model_pre_integration (model_calls sm calls) force 0 1 millis (by norm_num) h
  have hr : (model (model_calls sm calls) force 0 1 millis).1 =
      (model (model_calls sm calls) force 0 1 millis).2.x := rfl
  have ha := abs_nonneg (model (model_calls sm calls) force 0 1 millis).2.v
  have hb := le_abs_self (model (model_calls sm calls) force 0 1 millis).2.v
  have hc := neg_abs_le (model (model_calls sm calls) force 0 1 millis).2.v
  refine ⟨rfl, ?_, ?_, ?_, ?_, ?_, ?_, ?_, ?_⟩
  · intro hv; rw [hx]; exact hs.1 hv
  · intro hv; rw [hx]; exact hs.2 hv
  · rw [hx]; exact hq.1
  · rw [hx]; exact hq.2
  · intro hv; rw [hr]; nlinarith [hm.2]
  · intro hv; rw [hr]; nlinarith [hm.1]
  · rw [hr]; linarith [hm.1]
  · rw [hr]; linarith [hm.2]

theorem model_overshoot_one_sided_witness :
    (model_ieee (model_calls_ieee left_mass_ieee []) 0 0 1 1).2.v ≤ 0 ∧
    (model_ieee (model_calls_ieee left_mass_ieee []) 0 0 1 1).1 ≤ 1 :=
  ⟨by decide!, (model_overshoot_one_sided left_mass_ieee [] 0 1 (by decide)).2.1 (by decide!)⟩

/-- C6, the code at the failing input: with `force = 0.9975` on the initial
state the real acceleration is `-0.5`; `model` stores it in `int a` as `0`
and leaves the mass where it is, while the specification's step moves it to
`v = -0.0005`, `x = 0.9999995`. -/
theorem model_truncates_acceleration :
    model left_mass (399 / 400) 0 1 1 = (1, left_mass) ∧
    spec_advance left_mass (399 / 400) 0 1 1 =
      (1999999 / 2000000, mass_at (1999999 / 2000000) (-1 / 2000)) ∧
    model left_mass (399 / 400) 0 1 1 ≠ spec_advance left_mass (399 / 400) 0 1 1 := by
  decide!

/-- C7, the code at the failing input: released at `x = 1`, `v = 0` with the
default constants and advanced for 5000 ms under zero force, the mass rests
at `x = 0.00492`, `v = 0`; the displacement is not within `0.001` of `0`. -/
theorem model_settles_off_zero :
    model left_mass 0 0 1 5000 = (123 / 25000, settled) ∧
    ¬ (|(model left_mass 0 0 1 5000).1| ≤ 1 / 1000) := by
  have e : model left_mass 0 0 1 5000 = (123 / 25000, settled) := by
    have e5000 : (5000 : Int).toNat = 5000 := by decide
    simp only [model, e5000]
    rw [zero_force_settles 5000 (by norm_num)]
    rfl
  rw [e]
  refine ⟨rfl, ?_⟩
  norm_num [abs_of_pos]

/-- C8: a mass with the default constants at `x = 1`, `v = 0` driven by
`force = 1` is left unchanged by `model( sm, 1, 0, 1, millis )` for every
`millis`, and the call returns `1`. -/
theorem model_full_scale_pinned (millis : Int) :
    model left_mass 1 0 1 millis = (1, left_mass) ∧
    model right_mass 1 0 1 millis = (1, right_mass) := by
  have hl : model_step 1 0 1 left_mass = left_mass := by decide!
  have hr : model_step 1 0 1 right_mass = right_mass := by decide!
  simp only [model, model_loop_fixed 1 0 1 left_mass hl, model_loop_fixed 1 0 1 right_mass hr]
  exact ⟨rfl, rfl⟩

/-- C9: `model` with `millis = 0` returns the current displacement and leaves
the mass (all five fields) as it was, for every state, force and bounds. -/
theorem model_zero_millis (sm : sprung_mass) (force x_min x_max : ℚ) :
    model sm force x_min x_max 0 = (sm.x, sm) := by
  rfl

/-- C10: `model` runs the loop body exactly `millis` times and keeps no state
besides the mass: a call for `a` milliseconds followed by a call for `b`
milliseconds under the same force and bounds gives the same mass and return
value as one call for `a + b` milliseconds.  So two calls of `timer_callback`
in a row leave the globals as the second one alone does. -/
theorem model_split (sm : sprung_mass) (force x_min x_max : ℚ) (a b : Int)
    (ha : 0 ≤ a) (hb : 0 ≤ b) :
    model (model sm force x_min x_max a).2 force x_min x_max b =
      model sm force x_min x_max (a + b) ∧
    (model sm force x_min x_max a).2 = (model_step force x_min x_max)^[a.toNat] sm ∧
    (∀ (g : globals) (t1 t2 : Int), g.time ≤ t1 → t1 ≤ t2 →
      timer_callback (timer_callback g t1) t2 = timer_callback g t2) := by
  refine ⟨model_model sm force x_min x_max a b ha hb, ?_, timer_callback_twice⟩
  simp only [model, model_loop_eq_iterate]

theorem model_split_witness :
    model (model left_mass 0 0 1 5).2 0 0 1 7 = model left_mass 0 0 1 (5 + 7) :=
  (model_split left_mass 0 0 1 5 7 (by decide) (by decide)).1

/-! ## `get_max_amplitude` -/

theorem peak_magnitude_nonneg (l : List Int) : 0 ≤ peak_magnitude l := by
  cases l with
  | nil => simp [peak_magnitude]
  | cons s t => simp only [peak_magnitude, List.foldr_cons]; exact le_max_of_le_left (abs_nonneg s)

theorem peak_magnitude_cons (s : Int) (l : List Int) :
    peak_magnitude (s :: l) = max |s| (peak_magnitude l) := rfl

theorem le_peak_magnitude (l : List Int) : ∀ s ∈ l, |s| ≤ peak_magnitude l := by
  induction l with
  | nil => simp
  | cons a t ih =>
    intro s hs
    rw [peak_magnitude_cons]
    rcases List.mem_cons.mp hs with rfl | h
    · exact le_max_left _ _
    · exact le_max_of_le_right (ih s h)

theorem peak_magnitude_attained (l : List Int) (hl : l ≠ []) :
    ∃ s ∈ l, peak_magnitude l = |s| := by
  induction l with
  | nil => exact absurd rfl hl
  | cons a t ih =>
    rw [peak_magnitude_cons]
    by_cases ht : t = []
    · subst ht
      exact ⟨a, by simp, by simp [peak_magnitude]⟩
    · obtain ⟨s, hs, e⟩ := ih ht
      rcases le_total |a| (peak_magnitude t) with h | h
      · exact ⟨s, List.mem_cons_of_mem _ hs, by rw [max_eq_right h, e]⟩
      · exact ⟨a, by simp, by rw [max_eq_left h]⟩

theorem get_max_amplitude_loop_spec (audio_buf : List Int) (len channel : Int)
    (hlen : (audio_buf.length : Int) = len) (hch : channel = 0 ∨ channel = 1) :
    ∀ (n j fuel : Nat) (max_amp : Int) (reads : List Int),
      n ≤ fuel → len = 2 * ((j : Int) + n) → 0 ≤ max_amp →
      get_max_amplitude_loop audio_buf len channel fuel (2 * (j : Int)) max_amp reads =
        some (max max_amp (peak_magnitude ((List.range' j n).map
                (fun (i : Nat) => audio_buf.getD (2 * (i : Int) + channel).toNat 0))),
              reads ++ (List.range' j n).map (fun (i : Nat) => 2 * (i : Int) + channel)) := by
  intro n
  induction n with
  | zero =>
    intro j fuel max_amp reads _ hl hm
    have hnot : ¬ (2 * (j : Int) < len) := by omega
    cases fuel <;> simp [get_max_amplitude_loop, hnot, peak_magnitude, hm]
  | succ n ih =>
    intro j fuel max_amp reads hf hl hm
    obtain ⟨f, rfl⟩ : ∃ f, fuel = f + 1 := ⟨fuel - 1, by omega⟩
    have hlt : 2 * (j : Int) < len := by push_cast at hl; omega
    have hnn : ¬ (2 * (j : Int) + channel < 0) := by rcases hch with h | h <;> omega
    have hidx : (2 * (j : Int) + channel).toNat < audio_buf.length := by
      push_cast at hl
      rcases hch with h | h <;> omega
    have hget : audio_buf[(2 * (j : Int) + channel).toNat]? =
        some (audio_buf.getD (2 * (j : Int) + channel).toNat 0) := by
      rw [List.getD_eq_getElem?_getD, List.getElem?_eq_getElem hidx]
      rfl
    have hstep : 2 * (j : Int) + 2 = 2 * ((j + 1 : Nat) : Int) := by push_cast; ring
    simp only [get_max_amplitude_loop, hlt, hnn, if_true, if_false, hget]
    rw [hstep, ih (j + 1) f _ _ (by omega) (by push_cast at hl ⊢; omega)
      (by split_ifs <;> omega)]
    simp only [List.range'_succ, List.map_cons, peak_magnitude_cons, List.append_assoc,
      List.singleton_append]
    congr 2
    set s := audio_buf.getD (2 * (j : Int) + channel).toNat 0
    have habs : (if s < 0 then -s else s) = |s| := by
      split_ifs with h
      · exact (abs_of_neg h).symm
      · exact (abs_of_nonneg (not_lt.mp h)).symm
    rw [habs]
    have hmax : (if |s| > max_amp then |s| else max_amp) = max max_amp |s| := by
      split_ifs with h
      · exact (max_eq_right (le_of_lt h)).symm
      · exact (max_eq_left (not_lt.mp h)).symm
    rw [hmax, max_assoc]

theorem channel_indices_nodup (frames : Nat) (channel : Int) :
    (channel_indices frames channel).Nodup := by
  unfold channel_indices
  refine List.Nodup.map ?_ (List.nodup_range frames)
  intro a b h
  simp only at h
  omega

theorem get_max_amplitude_traced_eq (audio_buf : List Int) (len channel : Int)
    (hlen : (audio_buf.length : Int) = len) (heven : len % 2 = 0)
    (hch : channel = 0 ∨ channel = 1) :
    get_max_amplitude_traced audio_buf len channel =
      some ((peak_magnitude (channel_samples audio_buf (len / 2).toNat channel) : ℚ) / 32768,
        channel_indices (len / 2).toNat channel) := by
  have h0 : 0 ≤ len := by rw [← hlen]; exact Int.natCast_nonneg _
  have h := get_max_amplitude_loop_spec audio_buf len channel hlen hch (len / 2).toNat 0
    len.toNat 0 [] (by omega) (by push_cast; omega) le_rfl
  simp only [Nat.cast_zero, mul_zero] at h
  simp only [get_max_amplitude_traced, h, Option.map_some', channel_samples, channel_indices,
    List.range_eq_range', List.nil_append, List.map_map]
  rw [max_eq_right (peak_magnitude_nonneg _)]
  rfl

theorem peak_magnitude_le (l : List Int) (b : Int) (hb : 0 ≤ b) (h : ∀ s ∈ l, |s| ≤ b) :
    peak_magnitude l ≤ b := by
  induction l with
  | nil => simpa [peak_magnitude] using hb
  | cons a t ih =>
    rw [peak_magnitude_cons]
    exact max_le (h a (by simp)) (ih (fun s hs => h s (List.mem_cons_of_mem _ hs)))

theorem mem_channel_indices (frames : Nat) (channel j : Int) :
    j ∈ channel_indices frames channel ↔ ∃ i : Nat, i < frames ∧ j = 2 * (i : Int) + channel := by
  simp only [channel_indices, List.mem_map, List.mem_range]
  constructor
  · rintro ⟨i, hi, rfl⟩; exact ⟨i, hi, rfl⟩
  · rintro ⟨i, hi, rfl⟩; exact ⟨i, hi, rfl⟩

theorem mem_channel_samples (audio_buf : List Int) (frames : Nat) (channel s : Int) :
    s ∈ channel_samples audio_buf frames channel ↔
      ∃ i : Nat, i < frames ∧ s = audio_buf.getD (2 * (i : Int) + channel).toNat 0 := by
  simp only [channel_samples, List.mem_map, mem_channel_indices]
  constructor
  · rintro ⟨j, ⟨i, hi, rfl⟩, rfl⟩; exact ⟨i, hi, rfl⟩
  · rintro ⟨i, hi, rfl⟩; exact ⟨_, ⟨i, hi, rfl⟩, rfl⟩

theorem getD_mem_or_zero (audio_buf : List Int) (n : Nat) :
    audio_buf.getD n 0 ∈ audio_buf ∨ audio_buf.getD n 0 = 0 := by
  by_cases h : n < audio_buf.length
  · left
    rw [List.getD_eq_getElem _ _ h]
    exact List.getElem_mem h
  · right
    exact List.getD_eq_default _ _ (not_lt.mp h)

/-- C2: on a block of `len` interleaved samples (`len` even) and a channel in
`{0, 1}`, `get_max_amplitude` reads exactly the indices `2*i + channel`,
`0 ≤ i < len/2`, in order and each once, and returns the largest `|sample|`
among them divided by `32768`; the result is `0` for a block of length `0`. -/
theorem get_max_amplitude_scans_channel (audio_buf : List Int) (len channel : Int)
    (hlen : (audio_buf.length : Int) = len) (heven : len % 2 = 0)
    (hch : channel = 0 ∨ channel = 1) :
    get_max_amplitude_traced audio_buf len channel =
      some ((peak_magnitude (channel_samples audio_buf (len / 2).toNat channel) : ℚ) / 32768,
        (List.range (len / 2).toNat).map (fun (i : Nat) => 2 * (i : Int) + channel)) ∧
    get_max_amplitude audio_buf len channel =
      some ((peak_magnitude (channel_samples audio_buf (len / 2).toNat channel) : ℚ) / 32768) ∧
    (∀ i : Nat, (i : Int) < len / 2 →
      ((List.range (len / 2).toNat).map (fun (i : Nat) => 2 * (i : Int) + channel)).count
        (2 * (i : Int) + channel) = 1) ∧
    (∀ i : Nat, (i : Int) < len / 2 →
      |audio_buf.getD (2 * (i : Int) + channel).toNat 0| ≤
        peak_magnitude (channel_samples audio_buf (len / 2).toNat channel)) ∧
    (0 < len → ∃ i : Nat, (i : Int) < len / 2 ∧
      peak_magnitude (channel_samples audio_buf (len / 2).toNat channel) =
        |audio_buf.getD (2 * (i : Int) + channel).toNat 0|) ∧
    (len = 0 → get_max_amplitude audio_buf len channel = some 0) := by
  have h0 : 0 ≤ len := by rw [← hlen]; exact Int.natCast_nonneg _
  have ht := get_max_amplitude_traced_eq audio_buf len channel hlen heven hch
  have hg : get_max_amplitude audio_buf len channel =
      some ((peak_magnitude (channel_samples audio_buf (len / 2).toNat channel) : ℚ) / 32768) := by
    simp only [get_max_amplitude, ht, Option.map_some']
  refine ⟨ht, hg, ?_, ?_, ?_, ?_⟩
  · intro i hi
    refine List.count_eq_one_of_mem (channel_indices_nodup _ channel) ?_
    exact (mem_channel_indices _ _ _).mpr ⟨i, by omega, rfl⟩
  · intro i hi
    exact le_peak_magnitude _ _ ((mem_channel_samples _ _ _ _).mpr ⟨i, by omega, rfl⟩)
  · intro hpos
    have hne : channel_samples audio_buf (len / 2).toNat channel ≠ [] := by
      intro h
      have hm : audio_buf.getD (2 * ((0 : Nat) : Int) + channel).toNat 0 ∈
          channel_samples audio_buf (len / 2).toNat channel :=
        (mem_channel_samples _ _ _ _).mpr ⟨0, by omega, rfl⟩
      rw [h] at hm
      exact List.not_mem_nil _ hm
    obtain ⟨s, hs, e⟩ := peak_magnitude_attained _ hne
    obtain ⟨i, hi, rfl⟩ := (mem_channel_samples _ _ _ _).mp hs
    exact ⟨i, by omega, e⟩
  · intro hz
    rw [hg, hz]
    simp [channel_samples, channel_indices, peak_magnitude]

theorem get_max_amplitude_scans_channel_witness :
    get_max_amplitude_traced [3, -9, -4, 7, 2, 8] 6 1 =
      some ((peak_magnitude (channel_samples [3, -9, -4, 7, 2, 8] ((6 : Int) / 2).toNat 1) : ℚ)
        / 32768, (List.range ((6 : Int) / 2).toNat).map (fun (i : Nat) => 2 * (i : Int) + 1)) :=
  (get_max_amplitude_scans_channel [3, -9, -4, 7, 2, 8] 6 1 (by decide) (by decide)
    (by decide)).1

/-- C3: on a block of `Sint16` samples the result of `get_max_amplitude` lies
in `[0, 1]`; it is `0` when all samples are `0` and `1` when a sample of the
channel is `-32768`. -/
theorem get_max_amplitude_range (audio_buf : List Int) (len channel : Int)
    (hlen : (audio_buf.length : Int) = len) (heven : len % 2 = 0)
    (hch : channel = 0 ∨ channel = 1) (hs : ∀ s ∈ audio_buf, is_sint16 s) :
    ∃ r : ℚ, get_max_amplitude audio_buf len channel = some r ∧ 0 ≤ r ∧ r ≤ 1 ∧
      ((∀ s ∈ audio_buf, s = 0) → r = 0) ∧
      ((∃ i : Nat, (i : Int) < len / 2 ∧
          audio_buf.getD (2 * (i : Int) + channel).toNat 0 = -32768) → r = 1) := by
  have ht := get_max_amplitude_traced_eq audio_buf len channel hlen heven hch
  have hnn := peak_magnitude_nonneg (channel_samples audio_buf (len / 2).toNat channel)
  have hle : peak_magnitude (channel_samples audio_buf (len / 2).toNat channel) ≤ 32768 := by
    refine peak_magnitude_le _ _ (by norm_num) ?_
    intro s hmem
    obtain ⟨i, _, rfl⟩ := (mem_channel_samples _ _ _ _).mp hmem
    rcases getD_mem_or_zero audio_buf (2 * (i : Int) + channel).toNat with h | h
    · have := hs _ h
      unfold is_sint16 at this
      rw [abs_le]; omega
    · rw [h]; norm_num
  have hg : get_max_amplitude audio_buf len channel =
      some ((peak_magnitude (channel_samples audio_buf (len / 2).toNat channel) : ℚ) / 32768) := by
    simp only [get_max_amplitude, ht, Option.map_some']
  refine ⟨_, hg, ?_, ?_, ?_, ?_⟩
  · have : (0 : ℚ) ≤ (peak_magnitude (channel_samples audio_buf (len / 2).toNat channel) : ℚ) := by
      exact_mod_cast hnn
    positivity
  · have : (peak_magnitude (channel_samples audio_buf (len / 2).toNat channel) : ℚ) ≤ 32768 := by
      exact_mod_cast hle
    rw [div_le_one (by norm_num)]
    exact this
  · intro hz
    have : peak_magnitude (channel_samples audio_buf (len / 2).toNat channel) = 0 := by
      refine le_antisymm (peak_magnitude_le _ _ le_rfl ?_) hnn
      intro s hmem
      obtain ⟨i, _, rfl⟩ := (mem_channel_samples _ _ _ _).mp hmem
      rcases getD_mem_or_zero audio_buf (2 * (i : Int) + channel).toNat with h | h
      · rw [hz _ h]; norm_num
      · rw [h]; norm_num
    simp [this]
  · rintro ⟨i, hi, e⟩
    have h1 := le_peak_magnitude _ _
      ((mem_channel_samples audio_buf (len / 2).toNat channel _).mpr ⟨i, by omega, rfl⟩)
    rw [e] at h1
    have : peak_magnitude (channel_samples audio_buf (len / 2).toNat channel) = 32768 := by
      have : |(-32768 : Int)| = 32768 := by norm_num
      omega
    rw [this]
    norm_num

theorem get_max_amplitude_range_witness :
    get_max_amplitude [0, 12, -32768, -5] 4 0 = some 1 := by
  obtain ⟨r, hr, _, _, _, h1⟩ := get_max_amplitude_range [0, 12, -32768, -5] 4 0
    (by decide) (by decide) (by decide)
    (by intro s hs; simp only [List.mem_cons, List.mem_singleton, List.not_mem_nil, or_false] at hs
        rcases hs with rfl | rfl | rfl | rfl <;> exact ⟨by decide, by decide⟩)
  rw [hr, h1 ⟨1, by decide, by decide⟩]

/-! ## `get_force` -/

theorem SIX_DBA_pos : 0 < SIX_DBA := by
  unfold SIX_DBA; positivity

theorem log_SIX_DBA : Real.log SIX_DBA = 3 / 10 * Real.log 10 := by
  unfold SIX_DBA
  rw [Real.log_rpow (by norm_num)]

theorem log_SIX_DBA_pos : 0 < Real.log SIX_DBA := by
  rw [log_SIX_DBA]
  have : 0 < Real.log 10 := Real.log_pos (by norm_num)
  positivity

theorem logf_SIX_DBA : logf SIX_DBA = ((Real.log SIX_DBA : ℝ) : EReal) := by
  simp [logf, SIX_DBA_pos.ne']

theorem atanf_coe (r : ℝ) : atanf (r : EReal) = Real.arctan r := by
  simp [atanf]

theorem atanf_affine (r : ℝ) : atanf ((r : EReal) * 2 - 1) = Real.arctan (r * 2 - 1) := by
  have e : (r : EReal) * 2 - 1 = ((r * 2 - 1 : ℝ) : EReal) := by
    rw [EReal.coe_sub, EReal.coe_mul]; rfl
  rw [e, atanf_coe]

/-- The closed form of `get_force` on a positive amplitude. -/
theorem get_force_of_pos (p : ℝ) (hp : 0 < p) :
    get_force p =
      (Real.arctan (max ((Real.log p / Real.log SIX_DBA + 7) / 7) 0 * 2 - 1) *
        (1 / Real.pi) * 4 + 1) / 2 := by
  have e7 : (7 : EReal) = ((7 : ℝ) : EReal) := rfl
  have e0 : (0 : EReal) = ((0 : ℝ) : EReal) := rfl
  have hraw : (logf p / logf SIX_DBA + 7) / 7 =
      (((Real.log p / Real.log SIX_DBA + 7) / 7 : ℝ) : EReal) := by
    rw [logf_SIX_DBA, logf, if_neg hp.ne', e7, ← EReal.coe_div, ← EReal.coe_add, ← EReal.coe_div]
  unfold get_force
  simp only [hraw]
  by_cases h : (Real.log p / Real.log SIX_DBA + 7) / 7 < 0
  · have h' : (((Real.log p / Real.log SIX_DBA + 7) / 7 : ℝ) : EReal) < 0 := by
      rw [e0]; exact EReal.coe_lt_coe_iff.mpr h
    rw [if_pos h', max_eq_right h.le, e0, atanf_affine, M_1_PI]
  · have h' : ¬ (((Real.log p / Real.log SIX_DBA + 7) / 7 : ℝ) : EReal) < 0 := by
      rw [e0]; exact fun hh => h (EReal.coe_lt_coe_iff.mp hh)
    rw [if_neg h', max_eq_left (not_lt.mp h), atanf_affine, M_1_PI]

theorem get_force_zero : get_force 0 = 0 := by
  have e7 : (7 : EReal) = ((7 : ℝ) : EReal) := rfl
  have e0 : (0 : EReal) = ((0 : ℝ) : EReal) := rfl
  have hraw : (logf 0 / logf SIX_DBA + 7) / 7 = ⊥ := by
    have h1 : logf 0 / logf SIX_DBA = ⊥ := by
      rw [logf_SIX_DBA, logf, if_pos rfl, div_eq_mul_inv, ← EReal.coe_inv]
      exact EReal.bot_mul_coe_of_pos (inv_pos.mpr log_SIX_DBA_pos)
    rw [h1, EReal.bot_add, div_eq_mul_inv, e7, ← EReal.coe_inv]
    exact EReal.bot_mul_coe_of_pos (by norm_num)
  unfold get_force
  simp only [hraw]
  rw [if_pos (by rw [e0]; exact EReal.bot_lt_coe 0), e0, atanf_affine, M_1_PI]
  have : Real.arctan ((0 : ℝ) * 2 - 1) = -(Real.pi / 4) := by
    rw [show (0 : ℝ) * 2 - 1 = -1 by norm_num, Real.arctan_neg, Real.arctan_one]
  rw [this]
  field_simp
  ring

theorem get_force_one : get_force 1 = 1 := by
  rw [get_force_of_pos 1 one_pos, Real.log_one]
  have : Real.arctan (max (((0 : ℝ) / Real.log SIX_DBA + 7) / 7) 0 * 2 - 1) = Real.pi / 4 := by
    rw [show max (((0 : ℝ) / Real.log SIX_DBA + 7) / 7) 0 * 2 - 1 = 1 by norm_num,
      Real.arctan_one]
  rw [this]
  field_simp
  ring

theorem get_force_nonneg_of_pos (p : ℝ) (hp : 0 < p) : 0 ≤ get_force p := by
  rw [get_force_of_pos p hp]
  have h1 : Real.arctan (-1) ≤
      Real.arctan (max ((Real.log p / Real.log SIX_DBA + 7) / 7) 0 * 2 - 1) := by
    apply Real.arctan_strictMono.monotone
    have := le_max_right ((Real.log p / Real.log SIX_DBA + 7) / 7) 0
    linarith
  rw [Real.arctan_neg, Real.arctan_one] at h1
  have hpi := Real.pi_pos
  have h0 : (-(Real.pi / 4) * (1 / Real.pi) * 4 + 1) / 2 = (0 : ℝ) := by
    field_simp
    ring
  have h2 : (-(Real.pi / 4) * (1 / Real.pi) * 4 + 1) / 2 ≤
      (Real.arctan (max ((Real.log p / Real.log SIX_DBA + 7) / 7) 0 * 2 - 1) *
        (1 / Real.pi) * 4 + 1) / 2 := by
    gcongr
  rw [h0] at h2
  exact h2

theorem get_force_mono_of_pos (p q : ℝ) (hp : 0 < p) (hpq : p ≤ q) :
    get_force p ≤ get_force q := by
  rw [get_force_of_pos p hp, get_force_of_pos q (lt_of_lt_of_le hp hpq)]
  have hlog : Real.log p ≤ Real.log q := Real.log_le_log hp hpq
  have hc := log_SIX_DBA_pos
  have hpi := Real.pi_pos
  have h1 : (Real.log p / Real.log SIX_DBA + 7) / 7 ≤ (Real.log q / Real.log SIX_DBA + 7) / 7 := by
    gcongr
  have h2 : Real.arctan (max ((Real.log p / Real.log SIX_DBA + 7) / 7) 0 * 2 - 1) ≤
      Real.arctan (max ((Real.log q / Real.log SIX_DBA + 7) / 7) 0 * 2 - 1) := by
    apply Real.arctan_strictMono.monotone
    have := max_le_max h1 (le_refl (0 : ℝ))
    linarith
  gcongr

/-- C4: `get_force` is non-decreasing in the amplitude over `[0, 1]`: for
`0 ≤ p ≤ q ≤ 1`, `get_force p ≤ get_force q`; and on a positive amplitude
`get_force p = (atan(2·max((log p / log(10^0.3) + 7)/7, 0) − 1)·(4/π) + 1)/2`. -/
theorem get_force_monotone (p q : ℝ) (hp : 0 ≤ p) (hpq : p ≤ q) (_hq : q ≤ 1) :
    get_force p ≤ get_force q ∧
    (0 < p → get_force p =
      (Real.arctan (2 * max ((Real.log p / Real.log ((10 : ℝ) ^ ((3 : ℝ) / 10)) + 7) / 7) 0 - 1)
        * (4 / Real.pi) + 1) / 2) := by
  constructor
  · rcases hp.eq_or_lt with h | h
    · subst h
      rw [get_force_zero]
      rcases hpq.eq_or_lt with h' | h'
      · subst h'; rw [get_force_zero]
      · exact get_force_nonneg_of_pos q h'
    · exact get_force_mono_of_pos p q h hpq
  · intro h
    rw [get_force_of_pos p h]
    unfold SIX_DBA
    ring_nf

theorem get_force_monotone_witness :
    get_force (1 / 4) ≤ get_force (1 / 2) :=
  (get_force_monotone (1 / 4) (1 / 2) (by norm_num) (by norm_num) (by norm_num)).1

/-! ## `get_force` with rounding -/

theorem atanf_candidates (a : ℚ) (hk : ∃ k : Int, a = (k : ℚ) / 2 ^ 24)
    (hb : |((a : ℚ) : ℝ) - Real.pi / 4| < 3 / 2 ^ 25) :
    a = 13176794 / 2 ^ 24 ∨ a = 13176795 / 2 ^ 24 ∨ a = 13176796 / 2 ^ 24 := by
  obtain ⟨k, rfl⟩ := hk
  have h1 := Real.pi_gt_d20
  have h2 := Real.pi_lt_d20
  rw [abs_lt] at hb
  push_cast at hb
  obtain ⟨hlo, hhi⟩ := hb
  have hk1 : (13176793 : ℝ) < (k : ℝ) := by
    have : (k : ℝ) / 2 ^ 24 > Real.pi / 4 - 3 / 2 ^ 25 := by linarith
    have h3 : (k : ℝ) > (Real.pi / 4 - 3 / 2 ^ 25) * 2 ^ 24 := by
      rw [gt_iff_lt, ← lt_div_iff₀ (by positivity)]; exact this
    norm_num at h3 h1 ⊢
    linarith
  have hk2 : (k : ℝ) < (13176797 : ℝ) := by
    have : (k : ℝ) / 2 ^ 24 < Real.pi / 4 + 3 / 2 ^ 25 := by linarith
    have h3 : (k : ℝ) < (Real.pi / 4 + 3 / 2 ^ 25) * 2 ^ 24 := by
      rw [← div_lt_iff₀ (by positivity)]; exact this
    norm_num at h3 h2 ⊢
    linarith
  have hk1' : (13176793 : Int) < k := by exact_mod_cast hk1
  have hk2' : k < (13176797 : Int) := by exact_mod_cast hk2
  have : k = 13176794 ∨ k = 13176795 ∨ k = 13176796 := by omega
  rcases this with rfl | rfl | rfl
  · left; norm_num
  · right; left; norm_num
  · right; right; norm_num

theorem atanf_nearest (a : ℚ) (hk : ∃ k : Int, a = (k : ℚ) / 2 ^ 24)
    (hb : |((a : ℚ) : ℝ) - Real.pi / 4| ≤ 1 / 2 ^ 25) :
    a = 13176795 / 2 ^ 24 := by
  obtain ⟨k, rfl⟩ := hk
  have h1 := Real.pi_gt_d20
  have h2 := Real.pi_lt_d20
  rw [abs_le] at hb
  push_cast at hb
  obtain ⟨hlo, hhi⟩ := hb
  have hk1 : (13176794 : ℝ) < (k : ℝ) := by
    have : (k : ℝ) / 2 ^ 24 ≥ Real.pi / 4 - 1 / 2 ^ 25 := by linarith
    have h3 : (k : ℝ) ≥ (Real.pi / 4 - 1 / 2 ^ 25) * 2 ^ 24 := by
      rw [ge_iff_le, ← le_div_iff₀ (by positivity)]; exact this
    norm_num at h3 h1 ⊢
    linarith
  have hk2 : (k : ℝ) < (13176796 : ℝ) := by
    have : (k : ℝ) / 2 ^ 24 ≤ Real.pi / 4 + 1 / 2 ^ 25 := by linarith
    have h3 : (k : ℝ) ≤ (Real.pi / 4 + 1 / 2 ^ 25) * 2 ^ 24 := by
      rw [← div_le_iff₀ (by positivity)]; exact this
    norm_num at h3 h2 ⊢
    linarith
  have hk1' : (13176794 : Int) < k := by exact_mod_cast hk1
  have hk2' : k < (13176796 : Int) := by exact_mod_cast hk2
  have : k = 13176795 := by omega
  subst this
  norm_num

theorem get_force_ieee_one (L : c_library) (h1 : L.logf 1 = log_value.finite 0)
    (hs : ∃ ls : ℚ, 0 < ls ∧ L.logf (SIX_DBA_ieee L) = log_value.finite ls) :
    get_force_ieee L 1 =
      some (to_float (to_double (to_double (to_double (to_double
        (L.atanf 1 * M_1_PI_ieee) * 4) + 1) / 2))) := by
  obtain ⟨ls, hpos, hls⟩ := hs
  have e1 : to_float (to_float (to_float 0 + 7) / 7) = 1 := by decide!
  have e2 : to_float (to_float ((1 : ℚ) * 2) - 1) = 1 := by decide!
  unfold get_force_ieee
  rw [h1, hls]
  simp only [hpos.ne', if_false, zero_div, e1, show ¬ ((1 : ℚ) < 0) by norm_num, Option.map_some',
    e2]

theorem get_force_ieee_zero (L : c_library) (h0 : L.logf 0 = log_value.minus_infinity)
    (hs : ∃ ls : ℚ, 0 < ls ∧ L.logf (SIX_DBA_ieee L) = log_value.finite ls) :
    get_force_ieee L 0 =
      some (to_float (to_double (to_double (to_double (to_double
        (L.atanf (-1) * M_1_PI_ieee) * 4) + 1) / 2))) := by
  obtain ⟨ls, hpos, hls⟩ := hs
  have e2 : to_float (to_float ((0 : ℚ) * 2) - 1) = -1 := by decide!
  unfold get_force_ieee
  rw [h0, hls]
  simp only [hpos, if_true, Option.map_some', e2]

/-- The values of `get_force` with rounding at the amplitudes `1` and `0`,
for a C library whose `atanf` is within one and a half units in the last
place of the exact value at `1` and `-1`. -/
theorem get_force_ieee_values (L : c_library)
    (h0 : L.logf 0 = log_value.minus_infinity) (h1 : L.logf 1 = log_value.finite 0)
    (hs : ∃ ls : ℚ, 0 < ls ∧ L.logf (SIX_DBA_ieee L) = log_value.finite ls)
    (hp : ∃ k : Int, L.atanf 1 = (k : ℚ) / 2 ^ 24)
    (hpb : |((L.atanf 1 : ℚ) : ℝ) - Real.pi / 4| < 3 / 2 ^ 25)
    (hn : ∃ k : Int, L.atanf (-1) = (k : ℚ) / 2 ^ 24)
    (hnb : |((L.atanf (-1) : ℚ) : ℝ) + Real.pi / 4| < 3 / 2 ^ 25) :
    get_force_ieee L 1 = some 1 ∧
    (∃ r : ℚ, get_force_ieee L 0 = some r ∧ r ≠ 0 ∧ |r| < 1 / 2 ^ 24) ∧
    (|((L.atanf (-1) : ℚ) : ℝ) + Real.pi / 4| ≤ 1 / 2 ^ 25 →
      get_force_ieee L 0 = some (-7832755 / 2 ^ 49)) := by
  have hn' : ∃ k : Int, -L.atanf (-1) = (k : ℚ) / 2 ^ 24 := by
    obtain ⟨k, hk⟩ := hn
    exact ⟨-k, by rw [hk]; push_cast; ring⟩
  have hneg : |((-L.atanf (-1) : ℚ) : ℝ) - Real.pi / 4| =
      |((L.atanf (-1) : ℚ) : ℝ) + Real.pi / 4| := by
    rw [← abs_neg]
    push_cast
    ring_nf
  refine ⟨?_, ?_, ?_⟩
  · rw [get_force_ieee_one L h1 hs]
    rcases atanf_candidates _ hp hpb with h | h | h <;> rw [h] <;> decide!
  · rw [get_force_ieee_zero L h0 hs]
    have hc := atanf_candidates (-L.atanf (-1)) hn' (by rw [hneg]; exact hnb)
    rcases hc with h | h | h
    · have h' : L.atanf (-1) = -(13176794 / 2 ^ 24) := by rw [← h]; ring
      rw [h']
      exact ⟨3382165 / 2 ^ 47, by decide!, by norm_num, by norm_num [abs_of_pos]⟩
    · have h' : L.atanf (-1) = -(13176795 / 2 ^ 24) := by rw [← h]; ring
      rw [h']
      exact ⟨-7832755 / 2 ^ 49, by decide!, by norm_num, by norm_num [abs_of_neg]⟩
    · have h' : L.atanf (-1) = -(13176796 / 2 ^ 24) := by rw [← h]; ring
      rw [h']
      exact ⟨-14597085 / 2 ^ 48, by decide!, by norm_num, by norm_num [abs_of_neg]⟩
  · intro hb
    rw [get_force_ieee_zero L h0 hs]
    have h := atanf_nearest (-L.atanf (-1)) hn' (by rw [hneg]; exact hb)
    have h' : L.atanf (-1) = -(13176795 / 2 ^ 24) := by rw [← h]; ring
    rw [h']
    decide!

/-! ### The C library with nearest results -/

theorem nearest_float_zero : nearest_float 0 = 0 := by
  simp [nearest_float]

/-- In a binade `e ≥ -126` the nearest binary32 value is a multiple of
`2^(e-23)` within `2^(e-24)` of the argument. -/
theorem nearest_float_spec (y : ℝ) (e : Int) (he : Int.log 2 |y| = e) (hmin : -126 ≤ e) :
    (∃ k : Int, nearest_float y = (k : ℚ) * (2 : ℚ) ^ (e - 23)) ∧
    |((nearest_float y : ℚ) : ℝ) - y| ≤ (2 : ℝ) ^ (e - 24) := by
  have hmax : max (Int.log 2 |y|) (-126) - 23 = e - 23 := by rw [he, max_eq_left hmin]
  have hu : (0 : ℝ) < (2 : ℝ) ^ (e - 23) := by positivity
  constructor
  · exact ⟨round (y / (2 : ℝ) ^ (e - 23)), by unfold nearest_float; rw [hmax]⟩
  · unfold nearest_float
    rw [hmax]
    push_cast
    have hr := abs_sub_round (y / (2 : ℝ) ^ (e - 23))
    have e1 : ((round (y / (2 : ℝ) ^ (e - 23)) : Int) : ℝ) * (2 : ℝ) ^ (e - 23) - y =
        -((y / (2 : ℝ) ^ (e - 23) - (round (y / (2 : ℝ) ^ (e - 23)) : Int)) * (2 : ℝ) ^ (e - 23)) := by
      field_simp
      ring
    rw [e1, abs_neg, abs_mul, abs_of_pos hu]
    have e2 : (2 : ℝ) ^ (e - 24) = 1 / 2 * (2 : ℝ) ^ (e - 23) := by
      rw [show e - 23 = (e - 24) + 1 by ring, zpow_add_one₀ (by norm_num)]
      ring
    rw [e2]
    exact mul_le_mul_of_nonneg_right hr hu.le

theorem log2_abs_quarter_pi : Int.log 2 |Real.pi / 4| = -1 := by
  have hpos : (0 : ℝ) < Real.pi / 4 := by positivity
  rw [abs_of_pos hpos]
  have h1 : (-1 : Int) ≤ Int.log 2 (Real.pi / 4) := by
    rw [← Int.zpow_le_iff_le_log (by norm_num) hpos]
    have := Real.two_le_pi
    norm_num
    linarith
  have h2 : Int.log 2 (Real.pi / 4) < 0 := by
    rw [← Int.lt_zpow_iff_log_lt (by norm_num) hpos]
    have := Real.pi_lt_four
    norm_num
    linarith
  omega

theorem nearest_float_quarter_pi :
    (∃ k : Int, nearest_float (Real.pi / 4) = (k : ℚ) / 2 ^ 24) ∧
    |((nearest_float (Real.pi / 4) : ℚ) : ℝ) - Real.pi / 4| ≤ 1 / 2 ^ 25 := by
  obtain ⟨⟨k, hk⟩, hb⟩ := nearest_float_spec (Real.pi / 4) (-1) log2_abs_quarter_pi (by norm_num)
  refine ⟨⟨k, ?_⟩, ?_⟩
  · rw [hk]; norm_num [zpow_neg]; ring
  · refine hb.trans_eq ?_
    norm_num [zpow_neg]

theorem nearest_float_neg_quarter_pi :
    (∃ k : Int, nearest_float (-(Real.pi / 4)) = (k : ℚ) / 2 ^ 24) ∧
    |((nearest_float (-(Real.pi / 4)) : ℚ) : ℝ) + Real.pi / 4| ≤ 1 / 2 ^ 25 := by
  obtain ⟨⟨k, hk⟩, hb⟩ := nearest_float_spec (-(Real.pi / 4)) (-1)
    (by rw [abs_neg]; exact log2_abs_quarter_pi) (by norm_num)
  refine ⟨⟨k, ?_⟩, ?_⟩
  · rw [hk]; norm_num [zpow_neg]; ring
  · rw [sub_neg_eq_add] at hb
    refine hb.trans_eq ?_
    norm_num [zpow_neg]

/-- The nearest binary32 value of a number `≥ 2^-126` is below it by at most
the fraction `2^-24`. -/
theorem nearest_float_lower (y : ℝ) (hy : (2 : ℝ) ^ (-126 : Int) ≤ y) :
    y * (1 - 1 / 2 ^ 24) ≤ ((nearest_float y : ℚ) : ℝ) := by
  have hpos : 0 < y := lt_of_lt_of_le (by positivity) hy
  have hmin : -126 ≤ Int.log 2 |y| := by
    rw [abs_of_pos hpos, ← Int.zpow_le_iff_le_log (by norm_num) hpos]
    exact hy
  obtain ⟨_, hb⟩ := nearest_float_spec y (Int.log 2 |y|) rfl hmin
  have hle : (2 : ℝ) ^ (Int.log 2 |y|) ≤ y := by
    rw [abs_of_pos hpos]
    exact Int.zpow_log_le_self (by norm_num) hpos
  have e2 : (2 : ℝ) ^ (Int.log 2 |y| - 24) = (2 : ℝ) ^ (Int.log 2 |y|) / 2 ^ 24 := by
    rw [zpow_sub₀ (by norm_num)]
    norm_num
  rw [e2, abs_le] at hb
  have : (2 : ℝ) ^ (Int.log 2 |y|) / 2 ^ 24 ≤ y / 2 ^ 24 := by
    apply div_le_div_of_nonneg_right hle (by positivity)
  linarith [hb.1]

theorem c_library_nearest_logf_zero :
    c_library_nearest.logf 0 = log_value.minus_infinity := by
  simp [c_library_nearest]

theorem c_library_nearest_logf_one : c_library_nearest.logf 1 = log_value.finite 0 := by
  simp [c_library_nearest, nearest_float_zero]

theorem c_library_nearest_atanf_one :
    (∃ k : Int, c_library_nearest.atanf 1 = (k : ℚ) / 2 ^ 24) ∧
    |((c_library_nearest.atanf 1 : ℚ) : ℝ) - Real.pi / 4| ≤ 1 / 2 ^ 25 := by
  have e : c_library_nearest.atanf 1 = nearest_float (Real.pi / 4) := by
    simp [c_library_nearest, Real.arctan_one]
  rw [e]
  exact nearest_float_quarter_pi

theorem c_library_nearest_atanf_neg_one :
    (∃ k : Int, c_library_nearest.atanf (-1) = (k : ℚ) / 2 ^ 24) ∧
    |((c_library_nearest.atanf (-1) : ℚ) : ℝ) + Real.pi / 4| ≤ 1 / 2 ^ 25 := by
  have e : c_library_nearest.atanf (-1) = nearest_float (-(Real.pi / 4)) := by
    simp [c_library_nearest, Real.arctan_neg, Real.arctan_one]
  rw [e]
  exact nearest_float_neg_quarter_pi

theorem SIX_DBA_nearest_ge :
    (3 / 2 : ℝ) ≤ ((SIX_DBA_ieee c_library_nearest : ℚ) : ℝ) := by
  have hc : to_float (to_double (3 / 10)) = 5033165 / 2 ^ 24 := by decide!
  have e : SIX_DBA_ieee c_library_nearest =
      nearest_float ((10 : ℝ) ^ ((5033165 / 2 ^ 24 : ℝ))) := by
    simp [SIX_DBA_ieee, c_library_nearest, hc]
  rw [e]
  have h1 : (17 / 10 : ℝ) ≤ (10 : ℝ) ^ ((1 / 4 : ℝ)) := by
    have h17 : (17 / 10 : ℝ) = ((17 / 10 : ℝ) ^ (4 : ℕ)) ^ ((4 : ℕ) : ℝ)⁻¹ := by
      rw [Real.pow_rpow_inv_natCast (by norm_num) (by norm_num)]
    rw [h17, show (1 / 4 : ℝ) = ((4 : ℕ) : ℝ)⁻¹ by norm_num]
    exact Real.rpow_le_rpow (by positivity) (by norm_num) (by positivity)
  have h2 : (10 : ℝ) ^ ((1 / 4 : ℝ)) ≤ (10 : ℝ) ^ ((5033165 / 2 ^ 24 : ℝ)) :=
    Real.rpow_le_rpow_of_exponent_le (by norm_num) (by norm_num)
  have h3 : (17 / 10 : ℝ) ≤ (10 : ℝ) ^ ((5033165 / 2 ^ 24 : ℝ)) := h1.trans h2
  have h4 := nearest_float_lower ((10 : ℝ) ^ ((5033165 / 2 ^ 24 : ℝ)))
    (le_trans (by norm_num [zpow_neg]) h3)
  have h5 : (17 / 10 : ℝ) * (1 - 1 / 2 ^ 24) ≤
      (10 : ℝ) ^ ((5033165 / 2 ^ 24 : ℝ)) * (1 - 1 / 2 ^ 24) :=
    mul_le_mul_of_nonneg_right h3 (by norm_num)
  have h6 : (3 / 2 : ℝ) ≤ (17 / 10 : ℝ) * (1 - 1 / 2 ^ 24) := by norm_num
  linarith

theorem c_library_nearest_logf_SIX_DBA :
    ∃ ls : ℚ, 0 < ls ∧
      c_library_nearest.logf (SIX_DBA_ieee c_library_nearest) = log_value.finite ls := by
  have hs := SIX_DBA_nearest_ge
  have hne : SIX_DBA_ieee c_library_nearest ≠ 0 := by
    intro h
    rw [h] at hs
    norm_num at hs
  refine ⟨nearest_float (Real.log ((SIX_DBA_ieee c_library_nearest : ℚ) : ℝ)), ?_, ?_⟩
  · have hpos : (0 : ℝ) < ((SIX_DBA_ieee c_library_nearest : ℚ) : ℝ) := by linarith
    have hlog : (1 / 3 : ℝ) ≤ Real.log ((SIX_DBA_ieee c_library_nearest : ℚ) : ℝ) := by
      have h1 := Real.one_sub_inv_le_log_of_pos hpos
      have h2 : (((SIX_DBA_ieee c_library_nearest : ℚ) : ℝ))⁻¹ ≤ (3 / 2 : ℝ)⁻¹ :=
        inv_anti₀ (by norm_num) hs
      have h3 : (3 / 2 : ℝ)⁻¹ = 2 / 3 := by norm_num
      linarith
    have h4 := nearest_float_lower _ (le_trans (by norm_num [zpow_neg]) hlog)
    have h5 : (0 : ℝ) < Real.log ((SIX_DBA_ieee c_library_nearest : ℚ) : ℝ) *
        (1 - 1 / 2 ^ 24) := by
      apply mul_pos (by linarith) (by norm_num)
    have : (0 : ℝ) <
        ((nearest_float (Real.log ((SIX_DBA_ieee c_library_nearest : ℚ) : ℝ)) : ℚ) : ℝ) := by
      linarith
    exact_mod_cast this
  · show (if SIX_DBA_ieee c_library_nearest = 0 then log_value.minus_infinity
      else log_value.finite
        (nearest_float (Real.log ((SIX_DBA_ieee c_library_nearest : ℚ) : ℝ)))) = _
    rw [if_neg hne]

/-- C5, counterexample: with the rounding of every operation and a C library
that returns the nearest `float`, `get_force(0)` is `-7832755/2^49`, about
`-1.39e-8`, and not `0`. -/
theorem get_force_zero_amplitude_not_zero :
    get_force_ieee c_library_nearest 0 = some (-7832755 / 2 ^ 49) ∧
    get_force_ieee c_library_nearest 0 ≠ some 0 := by
  have h := (get_force_ieee_values c_library_nearest c_library_nearest_logf_zero
    c_library_nearest_logf_one c_library_nearest_logf_SIX_DBA
    c_library_nearest_atanf_one.1
    (lt_of_le_of_lt c_library_nearest_atanf_one.2 (by norm_num))
    c_library_nearest_atanf_neg_one.1
    (lt_of_le_of_lt c_library_nearest_atanf_neg_one.2 (by norm_num))).2.2
    c_library_nearest_atanf_neg_one.2
  rw [h]
  exact ⟨rfl, by norm_num⟩

/-- C5, amended: with the rounding of every operation, for every C library
with `logf(0) = -∞`, `logf(1) = 0`, `logf(SIX_DBA) > 0` and `atanf(1)`,
`atanf(-1)` binary32 values within one and a half units in the last place of
`π/4`, `-π/4`: `get_force(1) = 1`, and `get_force(0)` is a non-zero value of
magnitude below `2^-24`; it is `-7832755/2^49` when `atanf(-1)` is the
`float` nearest `-π/4`. -/
theorem get_force_boundary_rounded (L : c_library)
    (h0 : L.logf 0 = log_value.minus_infinity) (h1 : L.logf 1 = log_value.finite 0)
    (hs : ∃ ls : ℚ, 0 < ls ∧ L.logf (SIX_DBA_ieee L) = log_value.finite ls)
    (hp : ∃ k : Int, L.atanf 1 = (k : ℚ) / 2 ^ 24)
    (hpb : |((L.atanf 1 : ℚ) : ℝ) - Real.pi / 4| < 3 / 2 ^ 25)
    (hn : ∃ k : Int, L.atanf (-1) = (k : ℚ) / 2 ^ 24)
    (hnb : |((L.atanf (-1) : ℚ) : ℝ) + Real.pi / 4| < 3 / 2 ^ 25) :
    get_force_ieee L 1 = some 1 ∧
    (∃ r : ℚ, get_force_ieee L 0 = some r ∧ r ≠ 0 ∧ |r| < 1 / 2 ^ 24) ∧
    (|((L.atanf (-1) : ℚ) : ℝ) + Real.pi / 4| ≤ 1 / 2 ^ 25 →
      get_force_ieee L 0 = some (-7832755 / 2 ^ 49)) :=
  get_force_ieee_values L h0 h1 hs hp hpb hn hnb

theorem get_force_boundary_rounded_witness :
    get_force_ieee c_library_nearest 1 = some 1 :=
  (get_force_boundary_rounded c_library_nearest c_library_nearest_logf_zero
    c_library_nearest_logf_one c_library_nearest_logf_SIX_DBA
    c_library_nearest_atanf_one.1
    (lt_of_le_of_lt c_library_nearest_atanf_one.2 (by norm_num))
    c_library_nearest_atanf_neg_one.1
    (lt_of_le_of_lt c_library_nearest_atanf_neg_one.2 (by norm_num))).1
